import Mathlib

/-!
# Verification of `scripts/generate_release_pages.py`

A shallow embedding of the release-catalog generator.  Python strings are
modelled as `List Char` (`Str`); Python's stable sorts are modelled with
`List.insertionSort`, which is also stable, and a stable sort with respect to
a total preorder is unique, so the two agree.  Network effects are modelled
by passing the outcome of the single optional HTTP GET as an explicit
argument.  The pure classification and rendering pipeline is translated
function by function from the source.
-/

namespace ReleasePages


/-- Python strings, modelled as lists of characters. -/
abbrev Str := List Char

/-- Coerce a Lean string literal to the `Str` model. -/
def chars (s : String) : Str := s.data

/-- Python `str.strip()` (the model trims ASCII whitespace; the inputs at play
contain only spaces, tabs and line breaks). -/
def pyStrip (s : Str) : Str :=
  ((s.dropWhile Char.isWhitespace).reverse.dropWhile Char.isWhitespace).reverse

/-- Python `str.lower()` (ASCII case folding; asset names and slugs are ASCII). -/
def pyLower (s : Str) : Str := s.map Char.toLower

/-- Python `str.startswith`. -/
def startsWith (s p : Str) : Bool := p.isPrefixOf s

/-- Python `str.endswith`. -/
def endsWith (s p : Str) : Bool := p.isSuffixOf s

/-- Python slice `s[a:-b]` (used as `name[len(pre):-len(suf)]`). -/
def pySliceDrop (s : Str) (a b : Nat) : Str := (s.take (s.length - b)).drop a

/-- Fuel-driven worker for `pyReplace`; the fuel is the string length, which
bounds the number of consumed characters. -/
def pyReplaceAux : Nat → Str → Str → Str → Str
  | 0, s, _, _ => s
  | _ + 1, [], _, _ => []
  | fuel + 1, c :: rest, old, new =>
    if old ≠ [] ∧ old.isPrefixOf (c :: rest) then
      new ++ pyReplaceAux fuel ((c :: rest).drop old.length) old new
    else
      c :: pyReplaceAux fuel rest old new

/-- Python `str.replace(old, new)`: replace every occurrence, left to right,
without overlap. -/
def pyReplace (s old new : Str) : Str := pyReplaceAux s.length s old new

/-- Decimal digits of a natural number (Python `str(n)` / f-string `{n}`). -/
def natDigits (n : Nat) : Str := Nat.toDigits 10 n

/-- `source_sort_key` (line 117): the sentinel ranks after every other label. -/
def source_sort_key (source_name : Str) : Nat × Str :=
  if source_name = chars "unknown-build-list" then (1, source_name)
  else (0, source_name)

/-- Python tuple `≤` on `(int, str)` keys (lexicographic). -/
def tupleLe (a b : Nat × Str) : Prop := a.1 < b.1 ∨ (a.1 = b.1 ∧ a.2 ≤ b.2)

/-- Python tuple `<` on `(int, str)` keys (lexicographic, strict). -/
def tupleLt (a b : Nat × Str) : Prop := a.1 < b.1 ∨ (a.1 = b.1 ∧ a.2 < b.2)

instance : DecidableRel tupleLe := fun _ _ =>
  inferInstanceAs (Decidable (_ ∨ _))

instance : DecidableRel tupleLt := fun _ _ =>
  inferInstanceAs (Decidable (_ ∨ _))

/-- Comparison of source labels as performed by `sorted(..., key=source_sort_key)`. -/
def sourceLe (a b : Str) : Prop := tupleLe (source_sort_key a) (source_sort_key b)

/-- Strict version of `sourceLe`. -/
def sourceLt (a b : Str) : Prop := tupleLt (source_sort_key a) (source_sort_key b)

instance : DecidableRel sourceLe := fun _ _ =>
  inferInstanceAs (Decidable (tupleLe _ _))

instance : DecidableRel sourceLt := fun _ _ =>
  inferInstanceAs (Decidable (tupleLt _ _))

/-- `normalize_source_name` (lines 123-133). -/
def normalize_source_name (raw : Str) : Str :=
  let value := pyStrip raw
  if value = [] ∨ value = chars "unknown" then chars "unknown-build-list"
  else if value = chars "unknown-build-list" then value
  else if endsWith value (chars ".yaml") then value
  else if startsWith value (chars "build_list") then value ++ chars ".yaml"
  else value

/-- The three metadata fields attached to one archive name in
`RELEASE_MATRIX.json` (values are stored trimmed by `load_release_matrix`). -/
structure MatrixMeta where
  build_list_file : Str
  build_list_slug : Str
  source_slug : Str
deriving DecidableEq

/-- The values `meta.get(key, "")` for the three keys probed by
`pick_source_name`, in probe order; `none` models the empty dict `{}` that
`classify_release` passes for archives absent from the matrix. -/
def metaValues (meta : Option MatrixMeta) : List Str :=
  match meta with
  | none => [[], [], []]
  | some m => [m.build_list_file, m.build_list_slug, m.source_slug]

/-- The `for key in (...)` loop body of `pick_source_name` (lines 137-140),
expressed as recursion over the probed values. -/
def pickLoop : List Str → Str
  | [] => chars "unknown-build-list"
  | v :: rest =>
    let raw := pyStrip v
    if raw ≠ [] ∧ raw ≠ chars "unknown" ∧ raw ≠ chars "unknown-build-list" then
      normalize_source_name raw
    else pickLoop rest

/-- `pick_source_name` (lines 136-141). -/
def pick_source_name (meta : Option MatrixMeta) : Str :=
  pickLoop (metaValues meta)

/-- Claim C1's selection rule, written from the claim's words: normalize the
first value that is non-empty and not the literal "unknown" after trimming
(the claim does not exclude the sentinel itself from qualifying). -/
def claimedPickSource (meta : Option MatrixMeta) : Str :=
  match (metaValues meta).find?
      (fun v => decide (pyStrip v ≠ [] ∧ pyStrip v ≠ chars "unknown")) with
  | some v => normalize_source_name (pyStrip v)
  | none => chars "unknown-build-list"

/-- Claim C1 amended: the code also skips a value equal to the sentinel
"unknown-build-list" itself and moves on to the next key. -/
def amendedPickSource (meta : Option MatrixMeta) : Str :=
  match (metaValues meta).find?
      (fun v => decide (pyStrip v ≠ [] ∧ pyStrip v ≠ chars "unknown" ∧
        pyStrip v ≠ chars "unknown-build-list")) with
  | some v => normalize_source_name (pyStrip v)
  | none => chars "unknown-build-list"

/-- One downloadable file attached to a release (the fields of the GitHub
asset record that the script reads). -/
structure RawAsset where
  name : Str
  browser_download_url : Str
  size : Nat
deriving DecidableEq

/-- First loop of `parse_version_label` (lines 74-77): the first asset whose
name matches `firmware-all-<version>.zip`, returning `<version>`. -/
def versionFromAll : List RawAsset → Option Str
  | [] => none
  | asset :: rest =>
    if startsWith asset.name (chars "firmware-all-") ∧ endsWith asset.name (chars ".zip") then
      some (pySliceDrop asset.name (chars "firmware-all-").length (chars ".zip").length)
    else versionFromAll rest

/-- Second loop of `parse_version_label` (lines 78-81): the first asset whose
name matches `firmware-bundle-<version>.tar.gz`. -/
def versionFromBundle : List RawAsset → Option Str
  | [] => none
  | asset :: rest =>
    if startsWith asset.name (chars "firmware-bundle-") ∧ endsWith asset.name (chars ".tar.gz") then
      some (pySliceDrop asset.name (chars "firmware-bundle-").length (chars ".tar.gz").length)
    else versionFromBundle rest

/-- `parse_version_label` (lines 73-82). -/
def parse_version_label (assets : List RawAsset) : Str :=
  match versionFromAll assets with
  | some v => v
  | none =>
    match versionFromBundle assets with
    | some v => v
    | none => []

/-- The name test of the first loop of `parse_version_label`. -/
def isAllZipName (name : Str) : Bool :=
  startsWith name (chars "firmware-all-") && endsWith name (chars ".zip")

/-- The name test of the second loop of `parse_version_label`. -/
def isBundleName (name : Str) : Bool :=
  startsWith name (chars "firmware-bundle-") && endsWith name (chars ".tar.gz")

/-! ### The anchored regular expressions of the device/variant parsers

The patterns `^firmware-(.+)-<version>(?:-(\d+))?\.zip$` (with `<version>`
and the device slug inserted as escaped literals) are modelled exactly:
`(.+)` is greedy and its `.` does not match a newline, `(\d+)` matches a
non-empty ASCII digit run, and `$` matches at the end of the string or just
before a single trailing newline, as in Python's `re`. -/

/-- Match of the pattern tail `\.zip$` at `rest`. -/
def matchNoSuffix (rest : Str) : Option (Option Str) :=
  if rest = chars ".zip" ∨ rest = chars ".zip" ++ ['\n'] then some none else none

/-- Match of the pattern tail `(?:-(\d+))?\.zip$` at `rest`: the greedy
optional group is tried first (only the maximal digit run can succeed, since
after giving back a digit the next literal `.` cannot match a digit); on
failure the engine retries without the group. -/
def matchAfterVersion (rest : Str) : Option (Option Str) :=
  match rest with
  | c :: r =>
    if c = '-' ∧ r.takeWhile Char.isDigit ≠ [] ∧
        (r.dropWhile Char.isDigit = chars ".zip" ∨
          r.dropWhile Char.isDigit = chars ".zip" ++ ['\n']) then
      some (some (r.takeWhile Char.isDigit))
    else matchNoSuffix (c :: r)
  | [] => matchNoSuffix []

/-- All ways `^firmware-(.+)-<version>(?:-(\d+))?\.zip$` can match `name`,
listed by increasing length of the group `(.+)`; greedy backtracking selects
the longest, i.e. the last entry. -/
def deviceMatches (name version : Str) : List (Str × Option Str) :=
  if startsWith name (chars "firmware-") then
    let rest := name.drop (chars "firmware-").length
    (List.range rest.length).filterMap (fun i =>
      let g := rest.take (i + 1)
      let t := rest.drop (i + 1)
      if (!g.contains '\n') ∧ startsWith t ('-' :: version) then
        (matchAfterVersion (t.drop (version.length + 1))).map (fun d => (g, d))
      else none)
  else []

/-- The `re.match` of `derive_device_slug` (lines 97-100): group 1 and the
optional group 2 of the successful match, if any. -/
def deviceRegexMatch (name version : Str) : Option (Str × Option Str) :=
  (deviceMatches name version).getLast?

/-- The `re.match` of `derive_variant_label` (lines 109-110): everything up
to the optional digit group is literal, so the match is a prefix check
followed by the tail pattern. -/
def variantRegexMatch (asset_name device_slug version : Str) : Option (Option Str) :=
  if startsWith asset_name (chars "firmware-" ++ device_slug ++ ['-'] ++ version) then
    matchAfterVersion
      (asset_name.drop (chars "firmware-" ++ device_slug ++ ['-'] ++ version).length)
  else none

/-- `derive_device_slug` (lines 95-104). -/
def derive_device_slug (asset_name version_label : Str) : Str :=
  match (if version_label ≠ [] then deviceRegexMatch asset_name version_label else none) with
  | some m => m.1
  | none =>
    let fallback := pySliceDrop asset_name (chars "firmware-").length (chars ".zip").length
    if fallback = [] then chars "unknown-device" else fallback

/-- `derive_variant_label` (lines 107-114). -/
def derive_variant_label (asset_name device_slug version_label : Str) : Str :=
  match (if version_label ≠ [] then variantRegexMatch asset_name device_slug version_label else none) with
  | some none => chars "main"
  | some (some ds) => chars "variant " ++ ds
  | none => chars "archive"

/-- The optional `-<digits>` part of a matched name, from group 2. -/
def optPart : Option Str → Str
  | none => []
  | some ds => '-' :: ds

/-- The full form a name must have for the device pattern to consume it
entirely, given the matched groups. -/
def wholeNameOf (g : Str) (d : Option Str) (version : Str) : Str :=
  chars "firmware-" ++ g ++ ['-'] ++ version ++ optPart d ++ chars ".zip"

/-! ### The release-matrix loader -/

/-- JSON values as produced by `json.loads` (numbers restricted to integers;
the matrix payloads at play carry only strings and objects). -/
inductive Json where
  | null
  | bool (b : Bool)
  | num (n : Int)
  | str (s : Str)
  | arr (items : List Json)
  | obj (fields : List (Str × Json))

/-- Python `str(n)` for an integer. -/
def intRepr (n : Int) : Str :=
  if n < 0 then '-' :: natDigits n.natAbs else natDigits n.natAbs

/-- `", "`-joined concatenation used by Python container `repr`. -/
def joinComma (xs : List Str) : Str := List.intercalate (chars ", ") xs

/-- Python `repr` of a decoded JSON value, fuel-driven through the nesting
depth (string escaping inside `repr` is elided: the `'...'` quote form is
produced, exact for quote- and backslash-free strings). -/
def pyReprFuel : Nat → Json → Str
  | 0, _ => []
  | _ + 1, .null => chars "None"
  | _ + 1, .bool true => chars "True"
  | _ + 1, .bool false => chars "False"
  | _ + 1, .num n => intRepr n
  | _ + 1, .str s => Char.ofNat 39 :: (s ++ [Char.ofNat 39])
  | fuel + 1, .arr items =>
    '[' :: (joinComma (items.map (pyReprFuel fuel)) ++ [']'])
  | fuel + 1, .obj fields =>
    Char.ofNat 123 ::
      (joinComma (fields.map (fun p =>
        (Char.ofNat 39 :: (p.1 ++ [Char.ofNat 39])) ++ chars ": " ++ pyReprFuel fuel p.2)) ++
      [Char.ofNat 125])

mutual

/-- Nesting depth of a JSON value, sufficient fuel for `pyReprFuel`. -/
def jsonDepth : Json → Nat
  | .null => 1
  | .bool _ => 1
  | .num _ => 1
  | .str _ => 1
  | .arr items => 1 + jsonDepthList items
  | .obj fields => 1 + jsonDepthFields fields

/-- Maximal depth over a JSON array. -/
def jsonDepthList : List Json → Nat
  | [] => 0
  | v :: vs => max (jsonDepth v) (jsonDepthList vs)

/-- Maximal depth over a JSON object's values. -/
def jsonDepthFields : List (Str × Json) → Nat
  | [] => 0
  | p :: ps => max (jsonDepth p.2) (jsonDepthFields ps)

end


/-- Python `str(v)` of a decoded JSON value: identity on strings, `None`,
`True`/`False`, decimal for numbers, `repr` for containers. -/
def pythonStr (v : Json) : Str :=
  match v with
  | .null => chars "None"
  | .bool true => chars "True"
  | .bool false => chars "False"
  | .num n => intRepr n
  | .str s => s
  | .arr items => pyReprFuel (jsonDepth (.arr items)) (.arr items)
  | .obj fields => pyReprFuel (jsonDepth (.obj fields)) (.obj fields)

/-- Python `item.get(key, "")` on a decoded JSON object. -/
def objGet (fields : List (Str × Json)) (key : Str) : Json :=
  match fields.lookup key with
  | some v => v
  | none => Json.str []

/-- The three trimmed fields stored for one matrix entry (lines 169-173). -/
def matrixFieldsOf (fields : List (Str × Json)) : MatrixMeta :=
  { build_list_file := pyStrip (pythonStr (objGet fields (chars "build_list_file")))
  , build_list_slug := pyStrip (pythonStr (objGet fields (chars "build_list_slug")))
  , source_slug := pyStrip (pythonStr (objGet fields (chars "source_slug"))) }

/-- Python dict assignment `d[k] = v`: overwrite in place, else append. -/
def dictInsert : List (Str × MatrixMeta) → Str → MatrixMeta → List (Str × MatrixMeta)
  | [], k, v => [(k, v)]
  | (k0, v0) :: rest, k, v =>
    if k0 = k then (k0, v) :: rest else (k0, v0) :: dictInsert rest k v

/-- One iteration of the accumulation loop of `load_release_matrix`
(lines 163-173): non-object entries and entries with an empty trimmed
`archive_name` are skipped. -/
def matrixStep (acc : List (Str × MatrixMeta)) (item : Json) : List (Str × MatrixMeta) :=
  match item with
  | .obj fields =>
    if pyStrip (pythonStr (objGet fields (chars "archive_name"))) = [] then acc
    else dictInsert acc (pyStrip (pythonStr (objGet fields (chars "archive_name"))))
      (matrixFieldsOf fields)
  | _ => acc

/-- The accumulation loop of `load_release_matrix` (lines 162-173). -/
def buildByArchive (items : List Json) : List (Str × MatrixMeta) :=
  items.foldl matrixStep []

/-- Outcome of the `api_get_json` call for the matrix asset: `err` covers
`HTTPError`, `URLError`, `TimeoutError` and the JSON-parse `ValueError`, all
caught on line 156. -/
inductive FetchOutcome where
  | ok (payload : Json)
  | err

/-- `load_release_matrix` (lines 144-174), with the network outcome passed
explicitly. -/
def load_release_matrix (matrix_asset : Option RawAsset) (fetched : FetchOutcome) :
    List (Str × MatrixMeta) :=
  match matrix_asset with
  | none => []
  | some asset =>
    if asset.browser_download_url = [] then []
    else
      match fetched with
      | .err => []
      | .ok payload =>
        match payload with
        | .arr items => buildByArchive items
        | _ => []

/-- The trimmed string coercion of an entry's `archive_name` (empty for
non-object entries, which never qualify). -/
def itemArchiveName : Json → Str
  | .obj fields => pyStrip (pythonStr (objGet fields (chars "archive_name")))
  | _ => []

/-- The stored fields of an entry (junk for non-object entries). -/
def itemMeta : Json → MatrixMeta
  | .obj fields => matrixFieldsOf fields
  | _ => ⟨[], [], []⟩

/-- Predicate selecting entries that contribute a mapping for `name`. -/
def entryFor (name : Str) (item : Json) : Bool :=
  decide (itemArchiveName item ≠ [] ∧ itemArchiveName item = name)

/-! ### Fetching the release list -/

/-- One release record from the hosting API (the fields the script reads;
`""` models an absent or `null` string field, exactly matching the `or`
fallbacks used on them). -/
structure RawRelease where
  name : Str
  tag_name : Str
  html_url : Str
  draft : Bool
  prerelease : Bool
  published_at : Str
  created_at : Str
  assets : List RawAsset
deriving DecidableEq

/-- The pagination loop of `fetch_releases` (lines 44-54): the argument lists
the successive non-empty API pages; once they are exhausted the API returns
an empty page and the loop breaks. -/
def fetch_releases_pages : List (List RawRelease) → List RawRelease
  | [] => []
  | chunk :: rest =>
    if chunk = [] then []
    else if chunk.length < 100 then chunk
    else chunk ++ fetch_releases_pages rest

/-- The sort key of line 57: `published_at or created_at or ""`. -/
def releaseSortKey (rel : RawRelease) : Str :=
  if rel.published_at ≠ [] then rel.published_at
  else if rel.created_at ≠ [] then rel.created_at
  else []

/-- The comparison realised by `sort(key=..., reverse=True)`: descending by
key, stable among equal keys. -/
def releaseDesc (a b : RawRelease) : Prop := releaseSortKey b ≤ releaseSortKey a

instance : DecidableRel releaseDesc := fun _ _ =>
  inferInstanceAs (Decidable (_ ≤ _))

instance : IsTotal RawRelease releaseDesc :=
  ⟨fun a b => le_total (releaseSortKey b) (releaseSortKey a)⟩

instance : IsTrans RawRelease releaseDesc :=
  ⟨fun _ _ _ hab hbc => le_trans hbc hab⟩

/-- `fetch_releases` (lines 43-60): paginate, drop drafts, sort descending by
the resolved timestamp string (Python's sort is stable, as is
`insertionSort`, and a stable sort for a total preorder is unique). -/
def fetch_releases (pages : List (List RawRelease)) : List RawRelease :=
  let releases := fetch_releases_pages pages
  let visible := releases.filter (fun rel => !rel.draft)
  List.insertionSort releaseDesc visible

/-! ### Timestamps

`parse_timestamp` delegates to `datetime.fromisoformat` and `strftime`.
These stdlib functions are modelled for the shapes that can reach them:
`YYYY-MM-DD`, optionally followed by `T` or a space and
`HH:MM[:SS[.f{1,6}]]`, optionally followed by an offset `±HH:MM`. -/

/-- A parsed `datetime` value; `offsetMinutes = none` models a naive value. -/
structure PyDateTime where
  year : Nat
  month : Nat
  day : Nat
  hour : Nat
  minute : Nat
  second : Nat
  microsecond : Nat
  offsetMinutes : Option Int
deriving DecidableEq

/-- Numeric value of a decimal digit character. -/
def digitVal (c : Char) : Nat := c.toNat - 48

/-- Two fixed decimal digits. -/
def parse2 (c1 c2 : Char) : Option Nat :=
  if c1.isDigit ∧ c2.isDigit then some (digitVal c1 * 10 + digitVal c2) else none

/-- Four fixed decimal digits. -/
def parse4 (c1 c2 c3 c4 : Char) : Option Nat :=
  if c1.isDigit ∧ c2.isDigit ∧ c3.isDigit ∧ c4.isDigit then
    some (((digitVal c1 * 10 + digitVal c2) * 10 + digitVal c3) * 10 + digitVal c4)
  else none

/-- Gregorian leap-year rule. -/
def isLeapYear (y : Nat) : Bool := y % 4 = 0 && (y % 100 ≠ 0 || y % 400 = 0)

/-- Days in a month. -/
def daysInMonth (y m : Nat) : Nat :=
  if m = 2 then (if isLeapYear y then 29 else 28)
  else if m = 4 ∨ m = 6 ∨ m = 9 ∨ m = 11 then 30
  else 31

/-- Value of a digit run. -/
def digitsVal (l : Str) : Nat := l.foldl (fun acc c => acc * 10 + digitVal c) 0

/-- Microseconds denoted by a 1-6 digit fraction. -/
def microOf (ds : Str) : Nat := digitsVal ds * 10 ^ (6 - ds.length)

/-- Trailing UTC-offset parser: accepts the end of input (naive value) or
exactly `±HH:MM`. -/
def parseOffsetOnly (y mo da h mi sec micro : Nat) (s : Str) : Option PyDateTime :=
  match s with
  | [] => some ⟨y, mo, da, h, mi, sec, micro, none⟩
  | sign :: o1 :: o2 :: ':' :: o3 :: o4 :: [] =>
    if sign = '+' ∨ sign = '-' then
      match parse2 o1 o2, parse2 o3 o4 with
      | some oh, some om =>
        if oh ≤ 23 ∧ om ≤ 59 then
          some ⟨y, mo, da, h, mi, sec, micro,
            some (if sign = '-' then -((oh * 60 + om : Nat) : Int) else ((oh * 60 + om : Nat) : Int))⟩
        else none
      | _, _ => none
    else none
  | _ => none

/-- Optional fraction (after seconds), then offset. -/
def parseFracOffset (y mo da h mi sec : Nat) (s : Str) : Option PyDateTime :=
  match s with
  | '.' :: rest =>
    if 1 ≤ (rest.takeWhile Char.isDigit).length ∧ (rest.takeWhile Char.isDigit).length ≤ 6 then
      parseOffsetOnly y mo da h mi sec (microOf (rest.takeWhile Char.isDigit))
        (rest.dropWhile Char.isDigit)
    else none
  | ',' :: rest =>
    if 1 ≤ (rest.takeWhile Char.isDigit).length ∧ (rest.takeWhile Char.isDigit).length ≤ 6 then
      parseOffsetOnly y mo da h mi sec (microOf (rest.takeWhile Char.isDigit))
        (rest.dropWhile Char.isDigit)
    else none
  | _ => parseOffsetOnly y mo da h mi sec 0 s

/-- Time-of-day part `HH:MM[:SS[.frac]]` followed by the optional offset. -/
def parseTimePart (y mo da : Nat) (s : Str) : Option PyDateTime :=
  match s with
  | h1 :: h2 :: ':' :: mi1 :: mi2 :: rest =>
    match parse2 h1 h2, parse2 mi1 mi2 with
    | some h, some mi =>
      if h ≤ 23 ∧ mi ≤ 59 then
        match rest with
        | ':' :: s1 :: s2 :: rest2 =>
          match parse2 s1 s2 with
          | some sec => if sec ≤ 59 then parseFracOffset y mo da h mi sec rest2 else none
          | none => none
        | _ => parseOffsetOnly y mo da h mi 0 0 rest
      else none
    | _, _ => none
  | _ => none

/-- Modelled from the stdlib: `datetime.fromisoformat` on the shapes named
above; anything else (in particular the empty string) fails, which the
caller turns into the raw-string passthrough. -/
def fromisoformat (s : Str) : Option PyDateTime :=
  match s with
  | y1 :: y2 :: y3 :: y4 :: '-' :: m1 :: m2 :: '-' :: d1 :: d2 :: rest =>
    match parse4 y1 y2 y3 y4, parse2 m1 m2, parse2 d1 d2 with
    | some y, some mo, some da =>
      if 1 ≤ mo ∧ mo ≤ 12 ∧ 1 ≤ da ∧ da ≤ daysInMonth y mo then
        match rest with
        | [] => some ⟨y, mo, da, 0, 0, 0, 0, none⟩
        | sep :: rest2 =>
          if sep = 'T' ∨ sep = ' ' then parseTimePart y mo da rest2 else none
      else none
    | _, _, _ => none
  | _ => none

/-- Zero-padded two-digit field. -/
def pad2 (n : Nat) : Str := if n < 10 then '0' :: natDigits n else natDigits n

/-- Zero-padded four-digit year. -/
def pad4 (n : Nat) : Str :=
  if n < 10 then chars "000" ++ natDigits n
  else if n < 100 then chars "00" ++ natDigits n
  else if n < 1000 then '0' :: natDigits n
  else natDigits n

/-- Zero-padded six-digit microsecond field. -/
def pad6 (n : Nat) : Str :=
  let d := natDigits n
  List.replicate (6 - d.length) '0' ++ d

/-- `strftime("%Y-%m-%d %H:%M UTC")` (line 92): the wall-time fields with a
literal `UTC` suffix. -/
def strftimeDisplay (d : PyDateTime) : Str :=
  pad4 d.year ++ ['-'] ++ pad2 d.month ++ ['-'] ++ pad2 d.day ++ [' '] ++
    pad2 d.hour ++ [':'] ++ pad2 d.minute ++ chars " UTC"

/-- The `±HH:MM` suffix of `datetime.isoformat` for an aware value. -/
def offsetStr : Option Int → Str
  | none => []
  | some off =>
    (if off < 0 then ['-'] else ['+']) ++ pad2 (off.natAbs / 60) ++ [':'] ++
      pad2 (off.natAbs % 60)

/-- `datetime.isoformat()` (line 92). -/
def isoformatStr (d : PyDateTime) : Str :=
  pad4 d.year ++ ['-'] ++ pad2 d.month ++ ['-'] ++ pad2 d.day ++ ['T'] ++
    pad2 d.hour ++ [':'] ++ pad2 d.minute ++ [':'] ++ pad2 d.second ++
    (if d.microsecond ≠ 0 then '.' :: pad6 d.microsecond else []) ++
    offsetStr d.offsetMinutes

/-- `parse_timestamp` (lines 85-92). -/
def parse_timestamp (raw : Str) : Str × Str :=
  if raw = [] then ([], [])
  else
    match fromisoformat (pyReplace raw (chars "Z") (chars "+00:00")) with
    | none => (raw, raw)
    | some d => (strftimeDisplay d, isoformatStr d)

/-! ### Classifying one release -/

/-- Round `num * 10 / den` to the nearest integer, ties to even.  With the
power-of-two divisors used by `fmt_size`, exact decimal ties are exactly
representable in binary too, so this agrees with formatting the float. -/
def roundTenthsHalfEven (num den : Nat) : Nat :=
  let q := num * 10 / den
  let r := num * 10 % den
  if 2 * r < den then q
  else if den < 2 * r then q + 1
  else if q % 2 = 0 then q else q + 1

/-- Decimal rendering of a tenths count, `"{:.1f}"`. -/
def tenthsStr (t : Nat) : Str := natDigits (t / 10) ++ ['.'] ++ natDigits (t % 10)

/-- `fmt_size` (lines 63-70). -/
def fmt_size (num_bytes : Nat) : Str :=
  if num_bytes < 1024 then natDigits num_bytes ++ chars " B"
  else if num_bytes < 1024 * 1024 then
    tenthsStr (roundTenthsHalfEven num_bytes 1024) ++ chars " KB"
  else if num_bytes < 1024 * 1024 * 1024 then
    tenthsStr (roundTenthsHalfEven num_bytes (1024 * 1024)) ++ chars " MB"
  else tenthsStr (roundTenthsHalfEven num_bytes (1024 * 1024 * 1024)) ++ chars " GB"

/-- The special-slot and per-device/other partition state built by the
`for asset in assets` loop of `classify_release` (lines 181-207). -/
structure AssetBuckets where
  firmware_all : Option RawAsset
  firmware_bundle : Option RawAsset
  checksums : Option RawAsset
  files_manifest : Option RawAsset
  build_info : Option RawAsset
  release_matrix_asset : Option RawAsset
  per_device_assets : List RawAsset
  other_assets : List RawAsset
deriving DecidableEq

/-- The name test of the seventh branch of the partition chain (line 204). -/
def isFirmwareZipName (name : Str) : Bool :=
  startsWith name (chars "firmware-") && endsWith name (chars ".zip")

/-- A name reaches the per-device branch iff it fails the six special-role
tests and matches `firmware-*.zip`. -/
def isPerDeviceName (name : Str) : Bool :=
  !isAllZipName name && !isBundleName name &&
    !(name == chars "SHA256SUMS.txt") && !(name == chars "FILES.txt") &&
    !(name == chars "BUILD_INFO.json") && !(name == chars "RELEASE_MATRIX.json") &&
    isFirmwareZipName name

/-- A name reaches the final `else` branch iff it fails every other test. -/
def isOtherName (name : Str) : Bool :=
  !isAllZipName name && !isBundleName name &&
    !(name == chars "SHA256SUMS.txt") && !(name == chars "FILES.txt") &&
    !(name == chars "BUILD_INFO.json") && !(name == chars "RELEASE_MATRIX.json") &&
    !isFirmwareZipName name

/-- One iteration of the partition loop (lines 190-207): the `elif` chain in
source order, each special slot overwritten by a later match. -/
def bucketStep (st : AssetBuckets) (asset : RawAsset) : AssetBuckets :=
  if isAllZipName asset.name then { st with firmware_all := some asset }
  else if isBundleName asset.name then { st with firmware_bundle := some asset }
  else if asset.name == chars "SHA256SUMS.txt" then { st with checksums := some asset }
  else if asset.name == chars "FILES.txt" then { st with files_manifest := some asset }
  else if asset.name == chars "BUILD_INFO.json" then { st with build_info := some asset }
  else if asset.name == chars "RELEASE_MATRIX.json" then
    { st with release_matrix_asset := some asset }
  else if isFirmwareZipName asset.name then
    { st with per_device_assets := st.per_device_assets ++ [asset] }
  else { st with other_assets := st.other_assets ++ [asset] }

/-- The partition loop over all assets. -/
def classifyAssets (assets : List RawAsset) : AssetBuckets :=
  assets.foldl bucketStep ⟨none, none, none, none, none, none, [], []⟩

/-- One row of a device table (lines 220-227). -/
structure Row where
  variant_label : Str
  asset_name : Str
  download_url : Str
  size_text : Str
deriving DecidableEq

/-- `device_groups[slug]`: source label to rows, in insertion order. -/
abbrev SourceGroups := List (Str × List Row)

/-- `device_groups`: device slug to its source groups, in insertion order. -/
abbrev DeviceGroups := List (Str × SourceGroups)

/-- `device_group.setdefault(source_name, []).append(row)`. -/
def addRowToSources : SourceGroups → Str → Row → SourceGroups
  | [], src, row => [(src, [row])]
  | (s, rows) :: rest, src, row =>
    if s = src then (s, rows ++ [row]) :: rest
    else (s, rows) :: addRowToSources rest src row

/-- `device_groups.setdefault(device_slug, {})` followed by the row append
(lines 218-227). -/
def addRow : DeviceGroups → Str → Str → Row → DeviceGroups
  | [], dev, src, row => [(dev, [(src, [row])])]
  | (d, sg) :: rest, dev, src, row =>
    if d = dev then (d, addRowToSources sg src row) :: rest
    else (d, sg) :: addRow rest dev src row

/-- The row dictionary built for one per-device asset (lines 220-227). -/
def buildRow (version_label : Str) (asset : RawAsset) : Row :=
  { variant_label := derive_variant_label asset.name
      (derive_device_slug asset.name version_label) version_label
    asset_name := asset.name
    download_url := asset.browser_download_url
    size_text := fmt_size asset.size }

/-- One iteration of the per-device grouping loop (lines 212-227). -/
def buildStep (matrix : List (Str × MatrixMeta)) (version_label : Str)
    (dg : DeviceGroups) (asset : RawAsset) : DeviceGroups :=
  addRow dg (derive_device_slug asset.name version_label)
    (pick_source_name (matrix.lookup asset.name)) (buildRow version_label asset)

/-- The per-device grouping loop (lines 212-227). -/
def buildDeviceGroups (per_device : List RawAsset) (matrix : List (Str × MatrixMeta))
    (version_label : Str) : DeviceGroups :=
  per_device.foldl (buildStep matrix version_label) []

/-- Ordering of rows by asset name, `rows.sort(key=...)` (line 233). -/
def rowLe (a b : Row) : Prop := a.asset_name ≤ b.asset_name

/-- Ordering of source entries by `source_sort_key` (line 231); keys are
unique, so sorting the pairs equals iterating the sorted keys. -/
def srcPairLe (a b : Str × List Row) : Prop := sourceLe a.1 b.1

/-- Ordering of device entries by slug (line 270). -/
def devPairLe (a b : Str × SourceGroups) : Prop := a.1 ≤ b.1

/-- Ordering of leftover assets by name (line 271). -/
def assetNameLe (a b : RawAsset) : Prop := a.name ≤ b.name

instance : DecidableRel rowLe := fun _ _ => inferInstanceAs (Decidable (_ ≤ _))

instance : DecidableRel srcPairLe := fun _ _ => inferInstanceAs (Decidable (sourceLe _ _))

instance : DecidableRel devPairLe := fun _ _ => inferInstanceAs (Decidable (_ ≤ _))

instance : DecidableRel assetNameLe := fun _ _ => inferInstanceAs (Decidable (_ ≤ _))

/-- The tuple order is total. -/
def tupleLe_total (x y : Nat × Str) : tupleLe x y ∨ tupleLe y x := by
  rcases lt_trichotomy x.1 y.1 with h | h | h
  · exact Or.inl (Or.inl h)
  · rcases le_total x.2 y.2 with h2 | h2
    · exact Or.inl (Or.inr ⟨h, h2⟩)
    · exact Or.inr (Or.inr ⟨h.symm, h2⟩)
  · exact Or.inr (Or.inl h)

/-- The tuple order is transitive. -/
def tupleLe_trans {x y z : Nat × Str} (h1 : tupleLe x y) (h2 : tupleLe y z) :
    tupleLe x z := by
  rcases h1 with h1 | ⟨h1, h1'⟩
  · rcases h2 with h2 | ⟨h2, _⟩
    · exact Or.inl (h1.trans h2)
    · exact Or.inl (h2 ▸ h1)
  · rcases h2 with h2 | ⟨h2, h2'⟩
    · exact Or.inl (h1 ▸ h2)
    · exact Or.inr ⟨h1.trans h2, h1'.trans h2'⟩

instance : IsTotal Row rowLe := ⟨fun a b => le_total a.asset_name b.asset_name⟩

instance : IsTrans Row rowLe := ⟨fun _ _ _ h1 h2 => le_trans h1 h2⟩

instance : IsTotal (Str × List Row) srcPairLe :=
  ⟨fun a b => tupleLe_total (source_sort_key a.1) (source_sort_key b.1)⟩

instance : IsTrans (Str × List Row) srcPairLe :=
  ⟨fun _ _ _ h1 h2 => tupleLe_trans h1 h2⟩

instance : IsTotal (Str × SourceGroups) devPairLe := ⟨fun a b => le_total a.1 b.1⟩

instance : IsTrans (Str × SourceGroups) devPairLe := ⟨fun _ _ _ h1 h2 => le_trans h1 h2⟩

instance : IsTotal RawAsset assetNameLe := ⟨fun a b => le_total a.name b.name⟩

instance : IsTrans RawAsset assetNameLe := ⟨fun _ _ _ h1 h2 => le_trans h1 h2⟩

/-- The re-sorting of one device's sources and rows (lines 229-235). -/
def sortSourceGroups (sg : SourceGroups) : SourceGroups :=
  (List.insertionSort srcPairLe sg).map (fun p => (p.1, List.insertionSort rowLe p.2))

/-- The `for device_slug in list(device_groups.keys())` pass (lines 229-235),
which replaces every value but keeps the key order. -/
def innerSortedGroups (dg : DeviceGroups) : DeviceGroups :=
  dg.map (fun p => (p.1, sortSourceGroups p.2))

/-- `set.add`, modelled as an ordered list of first occurrences (only the
size of the set is consumed). -/
def insertNew (l : List Str) (x : Str) : List Str := if x ∈ l then l else l ++ [x]

/-- The `unique_sources` accumulation of lines 242-247. -/
def uniqueSourcesOf (dg : DeviceGroups) : List Str :=
  dg.foldl (fun acc p => p.2.foldl (fun acc2 q => insertNew acc2 q.1) acc) []

/-- The `search_tokens` accumulation of lines 243-251, in loop order. -/
def searchTokensOf (release_name release_tag version_label : Str)
    (dg : DeviceGroups) : List Str :=
  [pyLower release_name, pyLower release_tag, pyLower version_label] ++
    dg.flatMap (fun p =>
      pyLower p.1 :: p.2.flatMap (fun q =>
        pyLower q.1 :: q.2.flatMap (fun row =>
          [pyLower row.asset_name, pyLower row.variant_label])))

/-- The dictionary returned by `classify_release` (lines 253-273). -/
structure ClassifiedRelease where
  name : Str
  tag_name : Str
  html_url : Str
  is_prerelease : Bool
  published_at : Str
  published_at_sort : Str
  assets_total : Nat
  devices_total : Nat
  sources_total : Nat
  version_label : Str
  firmware_all : Option RawAsset
  firmware_bundle : Option RawAsset
  checksums : Option RawAsset
  files_manifest : Option RawAsset
  build_info : Option RawAsset
  release_matrix_asset : Option RawAsset
  device_groups : DeviceGroups
  other_assets : List RawAsset
  search_blob : Str
deriving DecidableEq

/-- `published_raw` (line 237): prefer `published_at`, then `created_at`,
then the empty string. -/
def publishedRaw (rel : RawRelease) : Str :=
  if rel.published_at ≠ [] then rel.published_at
  else if rel.created_at ≠ [] then rel.created_at else []

/-- `classify_release` (lines 177-273), with the matrix-fetch outcome passed
explicitly (it is consulted only when a `RELEASE_MATRIX.json` asset exists,
as in `load_release_matrix`). -/
def classify_release (raw_release : RawRelease) (matrixFetch : FetchOutcome) :
    ClassifiedRelease :=
  let assets := raw_release.assets
  let version_label := parse_version_label assets
  let st := classifyAssets assets
  let matrix_by_archive := load_release_matrix st.release_matrix_asset matrixFetch
  let dg := innerSortedGroups
    (buildDeviceGroups st.per_device_assets matrix_by_archive version_label)
  let published_raw := publishedRaw raw_release
  let pt := parse_timestamp published_raw
  let release_name := if raw_release.name ≠ [] then raw_release.name
    else if raw_release.tag_name ≠ [] then raw_release.tag_name
    else chars "Untitled release"
  { name := release_name
    tag_name := raw_release.tag_name
    html_url := raw_release.html_url
    is_prerelease := raw_release.prerelease
    published_at := if pt.1 ≠ [] then pt.1 else published_raw
    published_at_sort := if pt.2 ≠ [] then pt.2 else published_raw
    assets_total := assets.length
    devices_total := dg.length
    sources_total := (uniqueSourcesOf dg).length
    version_label := version_label
    firmware_all := st.firmware_all
    firmware_bundle := st.firmware_bundle
    checksums := st.checksums
    files_manifest := st.files_manifest
    build_info := st.build_info
    release_matrix_asset := st.release_matrix_asset
    device_groups := List.insertionSort devPairLe dg
    other_assets := List.insertionSort assetNameLe st.other_assets
    search_blob := List.intercalate (chars " ")
      ((searchTokensOf release_name raw_release.tag_name version_label dg).filter
        (fun t => !t.isEmpty)) }

/-! ### Rendering one release card -/

/-- `html.escape` with `quote=True` (the five replacements, `&` first). -/
def html_escape (s : Str) : Str :=
  pyReplace (pyReplace (pyReplace (pyReplace (pyReplace s
    (chars "&") (chars "&amp;"))
    (chars "<") (chars "&lt;"))
    (chars ">") (chars "&gt;"))
    (chars "\"") (chars "&quot;"))
    [Char.ofNat 39] (chars "&#x27;")

/-- `render_asset_chip` (lines 295-301); the asset's `name` field stands for
`asset.get("name", label)`, present on every API asset record. -/
def render_asset_chip (label : Str) (asset : Option RawAsset) : Str :=
  match asset with
  | none => []
  | some a =>
    chars "<a class=\"chip\" href=\"" ++ html_escape a.browser_download_url ++
      chars "\" title=\"" ++ html_escape a.name ++ chars "\">" ++
      html_escape label ++ chars " · " ++ fmt_size a.size ++ chars "</a>"

/-- `render_source_name` (lines 304-307). -/
def render_source_name (source_name : Str) : Str :=
  if source_name = chars "unknown-build-list" then chars "unknown" else source_name

/-- The `table_rows` accumulation (lines 325-339). -/
def deviceTableRows (source_groups : SourceGroups) : List Str :=
  source_groups.flatMap (fun p =>
    p.2.map (fun row =>
      chars "<tr><td><code>" ++ html_escape (render_source_name p.1) ++
        chars "</code></td><td><a href=\"" ++ html_escape row.download_url ++
        chars "\">" ++ html_escape row.asset_name ++
        chars "</a></td><td class=\"muted\">" ++ html_escape row.variant_label ++
        chars "</td><td class=\"muted\">" ++ html_escape row.size_text ++
        chars "</td></tr>"))

/-- The per-card `search_tokens` accumulation (lines 326-331). -/
def deviceSearchTokens (device_slug : Str) (source_groups : SourceGroups) : List Str :=
  pyLower device_slug :: source_groups.flatMap (fun p =>
    pyLower p.1 :: p.2.map (fun row => pyLower row.asset_name))

/-- One device card (lines 341-358), with the f-string literals verbatim. -/
def deviceCardHtml (device_slug : Str) (source_groups : SourceGroups) : Str :=
  chars "\n            <article class=\"device-card\" data-search=\"" ++
    html_escape (List.intercalate (chars " ") (deviceSearchTokens device_slug source_groups)) ++
    chars "\">\n              <h3>" ++ html_escape device_slug ++
    chars "</h3>\n              " ++
    (if deviceTableRows source_groups ≠ [] then
      chars "<table class=\"fw-table\"><thead><tr><th>Source (build_list)</th><th>Archive</th><th>Variant</th><th>Size</th></tr></thead><tbody>" ++
        (deviceTableRows source_groups).flatten ++ chars "</tbody></table>"
    else chars "<p class=\"muted\">No firmware archives for this device.</p>") ++
    chars "\n            </article>\n            "

/-- The placeholder appended when the release has no device cards (line 361). -/
def noArchivesPlaceholder : Str :=
  chars "<p class=\"muted\">No per-device firmware archives found for this release.</p>"

/-- The `device_cards` list (lines 323-361). -/
def deviceCardsOf (release : ClassifiedRelease) : List Str :=
  if release.device_groups.map (fun p => deviceCardHtml p.1 p.2) = [] then
    [noArchivesPlaceholder]
  else release.device_groups.map (fun p => deviceCardHtml p.1 p.2)

/-- The `quick_links` join (lines 312-321). -/
def quickLinksOf (release : ClassifiedRelease) : Str :=
  render_asset_chip (chars "All firmware BIN") release.firmware_all ++
    render_asset_chip (chars "Bundle") release.firmware_bundle ++
    render_asset_chip (chars "SHA256SUMS") release.checksums ++
    render_asset_chip (chars "FILES") release.files_manifest ++
    render_asset_chip (chars "BUILD_INFO") release.build_info ++
    render_asset_chip (chars "RELEASE_MATRIX") release.release_matrix_asset

/-- The part of the release card before the joined device cards
(lines 363-380). -/
def releaseCardHead (release : ClassifiedRelease) : Str :=
  chars "\n    <section class=\"release-card\" data-search=\"" ++
    html_escape release.search_blob ++
    chars "\">\n      <header class=\"release-header\">\n        <div class=\"release-title\">\n          <h2>" ++
    html_escape release.name ++ chars " " ++
    (if release.is_prerelease then chars "<span class=\"badge\">pre-release</span>" else []) ++
    chars "</h2>\n          <p class=\"muted\">\n            Tag <code>" ++
    html_escape release.tag_name ++
    chars "</code> ·\n            Published " ++ html_escape release.published_at ++
    chars " ·\n            Devices " ++ natDigits release.devices_total ++
    chars " ·\n            Sources " ++ natDigits release.sources_total ++
    chars " ·\n            Assets " ++ natDigits release.assets_total ++
    chars "\n          </p>\n        </div>\n        <a class=\"open-release\" href=\"" ++
    html_escape release.html_url ++
    chars "\">Open release</a>\n      </header>\n      <div class=\"quick-links\">" ++
    quickLinksOf release ++
    chars "</div>\n      <div class=\"device-grid\">\n        "

/-- The part of the release card after the joined device cards
(lines 379-383). -/
def releaseCardTail : Str := chars "\n      </div>\n    </section>\n    "

/-- `render_release_card` (lines 310-383). -/
def render_release_card (release : ClassifiedRelease) : Str :=
  releaseCardHead release ++ (deviceCardsOf release).flatten ++ releaseCardTail

/-- Fixture: a draft release, dated later than `pubRel`. -/
def draftRel : RawRelease :=
  ⟨chars "draft", chars "v2", [], true, false, chars "2025-01-02T00:00:00Z", [], []⟩

/-- Fixture: a published release. -/
def pubRel : RawRelease :=
  ⟨chars "pub", chars "v1", [], false, false, chars "2025-01-01T00:00:00Z", [], []⟩

/-- Fixture: a release whose assets are two aggregate zips and two bundle
archives, so two special roles each match twice. -/
def dupAllRel : RawRelease :=
  ⟨chars "dup", chars "v9", [], false, false, [], [],
    [⟨chars "firmware-all-1.0.zip", chars "u1", 0⟩,
     ⟨chars "firmware-bundle-1.0.tar.gz", chars "u3", 0⟩,
     ⟨chars "firmware-all-2.0.zip", chars "u2", 0⟩,
     ⟨chars "firmware-bundle-2.0.tar.gz", chars "u4", 0⟩]⟩

/-- Fixture: a release with one aggregate zip and three per-device archives
over two devices. -/
def multiRel : RawRelease :=
  ⟨chars "m", chars "vm", [], false, false, [], [],
    [⟨chars "firmware-all-1.0.zip", [], 0⟩,
     ⟨chars "firmware-b-1.0.zip", [], 0⟩,
     ⟨chars "firmware-a-1.0.zip", [], 0⟩,
     ⟨chars "firmware-a-1.0-1.zip", [], 0⟩]⟩

/-- Fixture: a release whose only asset is uncategorized. -/
def emptyRel : RawRelease :=
  ⟨chars "e", chars "ve", [], false, false, [], [], [⟨chars "README.md", [], 5⟩]⟩

/-- The six special slots of a classified release, indexed in the order of
the `elif` chain (lines 190-203): aggregate zip, bundle, checksums, file
manifest, build info, release matrix. -/
def specialSlot (c : ClassifiedRelease) (i : Fin 6) : Option RawAsset :=
  if i.val = 0 then c.firmware_all
  else if i.val = 1 then c.firmware_bundle
  else if i.val = 2 then c.checksums
  else if i.val = 3 then c.files_manifest
  else if i.val = 4 then c.build_info
  else c.release_matrix_asset

/-- The name test of each special role, in the same order: the prefix/suffix
patterns of the first two branches and the four exact file names. -/
def specialPred (i : Fin 6) (name : Str) : Bool :=
  if i.val = 0 then isAllZipName name
  else if i.val = 1 then isBundleName name
  else if i.val = 2 then name == chars "SHA256SUMS.txt"
  else if i.val = 3 then name == chars "FILES.txt"
  else if i.val = 4 then name == chars "BUILD_INFO.json"
  else name == chars "RELEASE_MATRIX.json"

/-- C1 (counterexample): with `build_list_file = "unknown-build-list"` and
`build_list_slug = "build_list_x"`, the code skips the sentinel-valued first
key and returns `"build_list_x.yaml"`, while the claim's rule stops at the
first key (non-empty and not `"unknown"`) and yields the sentinel. -/
theorem pick_source_name_claim_counterexample :
    pick_source_name
        (some ⟨chars "unknown-build-list", chars "build_list_x", []⟩) =
      chars "build_list_x.yaml" ∧
    claimedPickSource
        (some ⟨chars "unknown-build-list", chars "build_list_x", []⟩) =
      chars "unknown-build-list" ∧
    chars "build_list_x.yaml" ≠ chars "unknown-build-list" := by
  decide

/-- C1 (amended): the resolved build-source label is obtained by probing
`build_list_file`, `build_list_slug`, `source_slug` in that order and
normalizing the first trimmed value that is non-empty, not `"unknown"`, and
not `"unknown-build-list"`; if no key qualifies the sentinel is returned. -/
theorem pick_source_name_amended (meta : Option MatrixMeta) :
    pick_source_name meta = amendedPickSource meta := by
  have h : ∀ vs : List Str, pickLoop vs =
      (match vs.find? (fun v => decide (pyStrip v ≠ [] ∧ pyStrip v ≠ chars "unknown" ∧
          pyStrip v ≠ chars "unknown-build-list")) with
        | some v => normalize_source_name (pyStrip v)
        | none => chars "unknown-build-list") := by
    intro vs
    induction vs with
    | nil => rfl
    | cons v rest ih =>
      by_cases hv : pyStrip v ≠ [] ∧ pyStrip v ≠ chars "unknown" ∧
          pyStrip v ≠ chars "unknown-build-list"
      · simp [pickLoop, hv, List.find?]
      · simp [pickLoop, hv, List.find?, ih]
  simpa [pick_source_name, amendedPickSource] using h (metaValues meta)

/-- C9: for a trimmed value that is non-empty, not `"unknown"`, and not
`"unknown-build-list"`, `normalize_source_name` appends `".yaml"` exactly when
the value starts with `"build_list"` and does not already end with `".yaml"`;
any other such value is returned trimmed but otherwise unchanged. -/
theorem normalize_source_name_spec (raw : Str)
    (h1 : pyStrip raw ≠ []) (h2 : pyStrip raw ≠ chars "unknown")
    (h3 : pyStrip raw ≠ chars "unknown-build-list") :
    normalize_source_name raw =
      if startsWith (pyStrip raw) (chars "build_list") ∧
          ¬ (endsWith (pyStrip raw) (chars ".yaml")) then
        pyStrip raw ++ chars ".yaml"
      else pyStrip raw := by
  unfold normalize_source_name
  simp only [h1, h2, h3, or_self, if_false, false_or]
  by_cases hy : endsWith (pyStrip raw) (chars ".yaml") = true
  · simp [hy]
  · by_cases hb : startsWith (pyStrip raw) (chars "build_list") = true
    · simp [hy, hb]
    · simp [hy, hb]

/-- C9 witness: `" build_list_eu "` trims to `"build_list_eu"`, which starts
with `"build_list"` and does not end with `".yaml"`, so `".yaml"` is appended. -/
theorem normalize_source_name_spec_witness :
    normalize_source_name (chars " build_list_eu ") = chars "build_list_eu.yaml" ∧
    normalize_source_name (chars " svk.yaml ") = chars "svk.yaml" := by
  constructor
  · have h := normalize_source_name_spec (chars " build_list_eu ")
      (by decide) (by decide) (by decide)
    rw [h]; decide
  · have h := normalize_source_name_spec (chars " svk.yaml ")
      (by decide) (by decide) (by decide)
    rw [h]; decide

/-- C5 (counterexample): with two `firmware-all-*.zip` assets the first match
wins, so the asset `firmware-all-2.0.zip` is present yet the result is not
`"2.0"`; presence of a matching asset alone does not determine the result. -/
theorem parse_version_label_claim_counterexample :
    (∃ a ∈ [RawAsset.mk (chars "firmware-all-1.0.zip") [] 0,
            RawAsset.mk (chars "firmware-all-2.0.zip") [] 0],
        a.name = chars "firmware-all-" ++ chars "2.0" ++ chars ".zip") ∧
    parse_version_label
        [RawAsset.mk (chars "firmware-all-1.0.zip") [] 0,
         RawAsset.mk (chars "firmware-all-2.0.zip") [] 0] ≠ chars "2.0" := by
  decide

/-- C5 (amended): `parse_version_label` returns the `<v>` of the *first*
asset matching `firmware-all-<v>.zip` (in API order); if none matches, the
`<v>` of the first asset matching `firmware-bundle-<v>.tar.gz`; and if
neither exists, the empty string. -/
theorem parse_version_label_amended (assets : List RawAsset) :
    parse_version_label assets =
      match assets.find? (fun a => isAllZipName a.name) with
      | some a => pySliceDrop a.name (chars "firmware-all-").length (chars ".zip").length
      | none =>
        match assets.find? (fun a => isBundleName a.name) with
        | some a =>
          pySliceDrop a.name (chars "firmware-bundle-").length (chars ".tar.gz").length
        | none => [] := by
  have hAll : ∀ l : List RawAsset, versionFromAll l =
      (l.find? (fun a => isAllZipName a.name)).map
        (fun a => pySliceDrop a.name (chars "firmware-all-").length (chars ".zip").length) := by
    intro l
    induction l with
    | nil => rfl
    | cons a rest ih =>
      by_cases h : startsWith a.name (chars "firmware-all-") ∧ endsWith a.name (chars ".zip")
      · simp [versionFromAll, h, List.find?, isAllZipName, h.1, h.2]
      · have hb : isAllZipName a.name = false := by
          cases hA : startsWith a.name (chars "firmware-all-") <;>
            cases hB : endsWith a.name (chars ".zip") <;> simp_all [isAllZipName]
        simp [versionFromAll, h, List.find?, hb, ih]
  have hBundle : ∀ l : List RawAsset, versionFromBundle l =
      (l.find? (fun a => isBundleName a.name)).map
        (fun a => pySliceDrop a.name (chars "firmware-bundle-").length (chars ".tar.gz").length) := by
    intro l
    induction l with
    | nil => rfl
    | cons a rest ih =>
      by_cases h : startsWith a.name (chars "firmware-bundle-") ∧ endsWith a.name (chars ".tar.gz")
      · simp [versionFromBundle, h, List.find?, isBundleName, h.1, h.2]
      · have hb : isBundleName a.name = false := by
          cases hA : startsWith a.name (chars "firmware-bundle-") <;>
            cases hB : endsWith a.name (chars ".tar.gz") <;> simp_all [isBundleName]
        simp [versionFromBundle, h, List.find?, hb, ih]
  unfold parse_version_label
  rw [hAll, hBundle]
  cases assets.find? (fun a => isAllZipName a.name) with
  | none =>
    cases assets.find? (fun a => isBundleName a.name) with
    | none => rfl
    | some a => rfl
  | some a => rfl

theorem matchNoSuffix_sound {rest : Str} {d : Option Str}
    (h : matchNoSuffix rest = some d) :
    d = none ∧ (rest = chars ".zip" ∨ rest = chars ".zip" ++ ['\n']) := by
  unfold matchNoSuffix at h
  split at h
  · next hc => exact ⟨(Option.some.injEq _ _ ▸ h).symm, hc⟩
  · exact absurd h (by simp)

theorem matchAfterVersion_sound {rest : Str} {d : Option Str}
    (h : matchAfterVersion rest = some d) :
    (rest = optPart d ++ chars ".zip" ∨ rest = optPart d ++ chars ".zip" ++ ['\n']) ∧
    ∀ ds, d = some ds → ds ≠ [] ∧ ds.all Char.isDigit = true := by
  match rest with
  | [] =>
    obtain ⟨hd, hr⟩ := matchNoSuffix_sound h
    subst hd
    exact ⟨by simpa [optPart] using hr, by simp⟩
  | c :: r =>
    rw [matchAfterVersion] at h
    split at h
    · next hc =>
      obtain ⟨hc1, hc2, hc3⟩ := hc
      subst hc1
      set tw := r.takeWhile Char.isDigit with htw
      set dw := r.dropWhile Char.isDigit with hdw
      have hd : d = some tw := (Option.some.injEq _ _ ▸ h).symm
      subst hd
      have hr : r = tw ++ dw := by
        rw [htw, hdw]
        exact (List.takeWhile_append_dropWhile Char.isDigit r).symm
      constructor
      · rcases hc3 with h3 | h3
        · left
          simp only [optPart, List.cons_append]
          rw [hr, h3]
        · right
          simp only [optPart, List.cons_append]
          rw [hr, h3]
          simp
      · intro ds hds
        have hds' : tw = ds := by simpa using hds
        subst hds'
        refine ⟨hc2, ?_⟩
        rw [List.all_eq_true]
        intro c hc
        exact List.mem_takeWhile_imp (htw ▸ hc)
    · obtain ⟨hd, hr⟩ := matchNoSuffix_sound h
      subst hd
      exact ⟨by simpa [optPart] using hr, by simp⟩

theorem startsWith_decomp {s p : Str} (h : startsWith s p = true) :
    s = p ++ s.drop p.length := by
  have hp : p <+: s := List.isPrefixOf_iff_prefix.mp h
  exact (List.prefix_iff_eq_append.mp hp).symm

theorem deviceMatches_sound {name version g : Str} {d : Option Str}
    (h : (g, d) ∈ deviceMatches name version) :
    (name = wholeNameOf g d version ∨ name = wholeNameOf g d version ++ ['\n']) ∧
    g ≠ [] ∧ ∀ ds, d = some ds → ds ≠ [] ∧ ds.all Char.isDigit = true := by
  unfold deviceMatches at h
  split at h
  · next hpre =>
    rw [List.mem_filterMap] at h
    obtain ⟨i, hi, hf⟩ := h
    set rest := name.drop (chars "firmware-").length with hrest
    simp only at hf
    split at hf
    · next hcond =>
      obtain ⟨hnl, hsw⟩ := hcond
      rw [Option.map_eq_some'] at hf
      obtain ⟨d0, hm, hgd⟩ := hf
      have hg : g = rest.take (i + 1) := by
        have := congrArg Prod.fst hgd
        simpa using this.symm
      have hd : d = d0 := by
        have := congrArg Prod.snd hgd
        simpa using this.symm
      subst hd
      have hname : name = chars "firmware-" ++ rest := by
        have := startsWith_decomp hpre
        simpa [hrest] using this
      have hsplit : rest = rest.take (i + 1) ++ rest.drop (i + 1) :=
        (List.take_append_drop (i + 1) rest).symm
      set t := rest.drop (i + 1) with ht
      have htsplit : t = ('-' :: version) ++ t.drop (version.length + 1) := by
        have := startsWith_decomp hsw
        simpa using this
      obtain ⟨hform, hdig⟩ := matchAfterVersion_sound hm
      have hglen : g ≠ [] := by
        rw [hg, Ne, List.take_eq_nil_iff]
        have hi' : i < rest.length := by simpa using hi
        rintro (h1 | h2)
        · omega
        · rw [h2] at hi'; simp at hi'
      refine ⟨?_, hglen, hdig⟩
      rcases hform with hf1 | hf1
      · left
        rw [hname, hsplit, ← hg, htsplit, hf1]
        simp [wholeNameOf, List.append_assoc]
      · right
        rw [hname, hsplit, ← hg, htsplit, hf1]
        simp [wholeNameOf, List.append_assoc]
    · exact absurd hf (by simp)
  · simp at h

theorem deviceRegexMatch_sound {name version g : Str} {d : Option Str}
    (h : deviceRegexMatch name version = some (g, d)) :
    (name = wholeNameOf g d version ∨ name = wholeNameOf g d version ++ ['\n']) ∧
    g ≠ [] ∧ ∀ ds, d = some ds → ds ≠ [] ∧ ds.all Char.isDigit = true := by
  have hmem : (g, d) ∈ deviceMatches name version := by
    have hin : (g, d) ∈ (deviceMatches name version).getLast? := Option.mem_def.mpr h
    obtain ⟨hne, heq⟩ := List.mem_getLast?_eq_getLast hin
    rw [heq]
    exact List.getLast_mem hne
  exact deviceMatches_sound hmem

theorem variantRegexMatch_sound {name slug version : Str} {d : Option Str}
    (h : variantRegexMatch name slug version = some d) :
    name = wholeNameOf slug d version ∨ name = wholeNameOf slug d version ++ ['\n'] := by
  unfold variantRegexMatch at h
  split at h
  · next hpre =>
    have hname := startsWith_decomp hpre
    obtain ⟨hform, _⟩ := matchAfterVersion_sound h
    rcases hform with hf1 | hf1
    · left
      rw [hname, hf1]
      simp [wholeNameOf, List.append_assoc]
    · right
      rw [hname, hf1]
      simp [wholeNameOf, List.append_assoc]
  · exact absurd h (by simp)

/-- C6 (counterexample): on the asset name `"firmware-x-2.5.1.zip\n"` the
device pattern matches (Python's `$` also matches just before a single
trailing newline), returning slug `"x"`, although the match did not consume
the entire name: the name is not of the fully-consumed form. -/
theorem derive_device_slug_claim_counterexample :
    deviceRegexMatch (chars "firmware-x-2.5.1.zip" ++ ['\n']) (chars "2.5.1") =
      some (chars "x", none) ∧
    derive_device_slug (chars "firmware-x-2.5.1.zip" ++ ['\n']) (chars "2.5.1") = chars "x" ∧
    chars "firmware-x-2.5.1.zip" ++ ['\n'] ≠ wholeNameOf (chars "x") none (chars "2.5.1") := by
  decide

/-- C6 (amended): the example parses hold —
`derive_device_slug("firmware-heltec-v2_1-2.5.1.zip", "2.5.1") = "heltec-v2_1"`,
`derive_variant_label` on the same inputs is `"main"`, and on
`firmware-heltec-v2_1-2.5.1-1.zip` it is `"variant 1"` — and both parsers are
anchored at the start and at the end of the asset name, except that (as with
Python's `$`) the end anchor also accepts a single trailing newline: any
successful match decomposes the whole name, up to that optional newline. -/
theorem derive_parsers_amended :
    derive_device_slug (chars "firmware-heltec-v2_1-2.5.1.zip") (chars "2.5.1") =
      chars "heltec-v2_1" ∧
    derive_variant_label (chars "firmware-heltec-v2_1-2.5.1.zip") (chars "heltec-v2_1")
      (chars "2.5.1") = chars "main" ∧
    derive_variant_label (chars "firmware-heltec-v2_1-2.5.1-1.zip") (chars "heltec-v2_1")
      (chars "2.5.1") = chars "variant 1" ∧
    (∀ name version g d, deviceRegexMatch name version = some (g, d) →
      name = wholeNameOf g d version ∨ name = wholeNameOf g d version ++ ['\n']) ∧
    (∀ name slug version d, variantRegexMatch name slug version = some d →
      name = wholeNameOf slug d version ∨ name = wholeNameOf slug d version ++ ['\n']) := by
  refine ⟨by decide, by decide, by decide, ?_, ?_⟩
  · intro name version g d h
    exact (deviceRegexMatch_sound h).1
  · intro name slug version d h
    exact variantRegexMatch_sound h

/-- C6 witness: the anchoring statement applied at the concrete heltec asset
name recovers the full decomposition of the name. -/
theorem derive_parsers_amended_witness :
    chars "firmware-heltec-v2_1-2.5.1.zip" =
        wholeNameOf (chars "heltec-v2_1") none (chars "2.5.1") ∨
      chars "firmware-heltec-v2_1-2.5.1.zip" =
        wholeNameOf (chars "heltec-v2_1") none (chars "2.5.1") ++ ['\n'] :=
  derive_parsers_amended.2.2.2.1 (chars "firmware-heltec-v2_1-2.5.1.zip")
    (chars "2.5.1") (chars "heltec-v2_1") none (by decide)

theorem strBeqTrue {name k : Str} (h : name = k) : (name == k) = true :=
  beq_iff_eq.mpr h

theorem strBeqFalse {name k : Str} (h : ¬ name = k) : (name == k) = false := by
  cases hbe : name == k with
  | true => exact absurd (eq_of_beq hbe) h
  | false => rfl

theorem dictInsert_lookup (d : List (Str × MatrixMeta)) (k : Str) (v : MatrixMeta)
    (name : Str) :
    (dictInsert d k v).lookup name = if name = k then some v else d.lookup name := by
  induction d with
  | nil =>
    by_cases h : name = k
    · simp [dictInsert, List.lookup, strBeqTrue h, h]
    · simp [dictInsert, List.lookup, strBeqFalse h, h]
  | cons p rest ih =>
    obtain ⟨k0, v0⟩ := p
    by_cases hk : k0 = k
    · subst hk
      by_cases hn : name = k0
      · simp [dictInsert, List.lookup, strBeqTrue hn, hn]
      · simp [dictInsert, List.lookup, strBeqFalse hn, hn]
    · by_cases hn : name = k0
      · subst hn
        simp [dictInsert, hk, List.lookup, strBeqTrue rfl]
      · simp [dictInsert, hk, List.lookup, strBeqFalse hn, ih]

theorem matrixStep_lookup (acc : List (Str × MatrixMeta)) (item : Json) (name : Str) :
    (matrixStep acc item).lookup name =
      if itemArchiveName item ≠ [] ∧ itemArchiveName item = name then some (itemMeta item)
      else acc.lookup name := by
  match item with
  | .null | .bool _ | .num _ | .str _ | .arr _ =>
    simp [matrixStep, itemArchiveName]
  | .obj fields =>
    by_cases he : pyStrip (pythonStr (objGet fields (chars "archive_name"))) = []
    · simp [matrixStep, he, itemArchiveName]
    · rw [matrixStep]
      simp only [he, if_false]
      rw [dictInsert_lookup]
      by_cases hn : name = pyStrip (pythonStr (objGet fields (chars "archive_name")))
      · simp [hn, itemArchiveName, itemMeta, he]
      · have hns : ¬ pyStrip (pythonStr (objGet fields (chars "archive_name"))) = name :=
          fun h => hn h.symm
        simp [hn, itemArchiveName, itemMeta, he, hns]

theorem buildFold_lookup (items : List Json) (acc : List (Str × MatrixMeta)) (name : Str) :
    (items.foldl matrixStep acc).lookup name =
      match items.reverse.find? (entryFor name) with
      | some item => some (itemMeta item)
      | none => acc.lookup name := by
  induction items generalizing acc with
  | nil => rfl
  | cons item rest ih =>
    rw [List.foldl_cons, ih, List.reverse_cons, List.find?_append]
    cases hf : rest.reverse.find? (entryFor name) with
    | some j => simp [Option.or]
    | none =>
      rw [matrixStep_lookup]
      by_cases hc : itemArchiveName item ≠ [] ∧ itemArchiveName item = name
      · have h3 : name ≠ [] := hc.2 ▸ hc.1
        simp [Option.or, List.find?, entryFor, hc.1, hc.2, h3]
      · simp [Option.or, List.find?, entryFor, hc]

theorem dictInsert_key_nonempty (k : Str) (v : MatrixMeta) (hk : k ≠ []) :
    ∀ d : List (Str × MatrixMeta), (∀ p ∈ d, p.1 ≠ []) →
      ∀ p ∈ dictInsert d k v, p.1 ≠ [] := by
  intro d
  induction d with
  | nil =>
    intro _ p hp
    rw [dictInsert, List.mem_singleton] at hp
    rw [hp]
    exact hk
  | cons q rest ih =>
    obtain ⟨k0, v0⟩ := q
    intro hd p hp
    by_cases h0 : k0 = k
    · rw [dictInsert, if_pos h0] at hp
      rcases List.mem_cons.mp hp with h | h
      · rw [h]
        exact h0 ▸ hk
      · exact hd p (List.mem_cons_of_mem _ h)
    · rw [dictInsert, if_neg h0] at hp
      rcases List.mem_cons.mp hp with h | h
      · rw [h]
        exact hd (k0, v0) (List.mem_cons_self _ _)
      · exact ih (fun q hq => hd q (List.mem_cons_of_mem _ hq)) p h

theorem buildFold_keys (items : List Json) :
    ∀ acc : List (Str × MatrixMeta), (∀ p ∈ acc, p.1 ≠ []) →
      ∀ p ∈ items.foldl matrixStep acc, p.1 ≠ [] := by
  induction items with
  | nil => intro acc hacc p hp; exact hacc p hp
  | cons item rest ih =>
    intro acc hacc p hp
    rw [List.foldl_cons] at hp
    refine ih _ ?_ p hp
    intro q hq
    match item with
    | .null | .bool _ | .num _ | .str _ | .arr _ =>
      exact hacc q (by simpa [matrixStep] using hq)
    | .obj fields =>
      rw [matrixStep] at hq
      split at hq
      · exact hacc q hq
      · next he => exact dictInsert_key_nonempty _ _ he _ hacc q hq

/-- C4: `load_release_matrix` is total (never raises) and returns the empty
mapping when the asset reference is absent, when it has no download URL, on a
fetch/parse failure, and when the payload is not a list; for a list payload
it returns the mapping whose lookup at a name yields the three trimmed string
fields of the last object entry whose coerced, trimmed `archive_name` equals
that name — entries that are not objects or whose trimmed `archive_name` is
empty contribute nothing, and every stored key is non-empty. -/
theorem load_release_matrix_spec :
    (∀ fetched, load_release_matrix none fetched = []) ∧
    (∀ asset fetched, asset.browser_download_url = [] →
      load_release_matrix (some asset) fetched = []) ∧
    (∀ asset, load_release_matrix (some asset) .err = []) ∧
    (∀ asset payload, (∀ items, payload ≠ Json.arr items) →
      load_release_matrix (some asset) (.ok payload) = []) ∧
    (∀ asset items, asset.browser_download_url ≠ [] →
      load_release_matrix (some asset) (.ok (.arr items)) = buildByArchive items) ∧
    (∀ items name, (buildByArchive items).lookup name =
      (items.reverse.find? (entryFor name)).map itemMeta) ∧
    (∀ items, ∀ p ∈ buildByArchive items, p.1 ≠ []) := by
  refine ⟨fun _ => rfl, ?_, ?_, ?_, ?_, ?_, ?_⟩
  · intro a f h
    simp [load_release_matrix, h]
  · intro a
    unfold load_release_matrix
    by_cases h : a.browser_download_url = [] <;> simp [h]
  · intro a payload hp
    have hite : ∀ (c : Prop) (_ : Decidable c),
        (if c then ([] : List (Str × MatrixMeta)) else []) = [] :=
      fun _ _ => ite_self []
    cases payload with
    | arr items => exact absurd rfl (hp items)
    | null => exact hite _ _
    | bool b => exact hite _ _
    | num n => exact hite _ _
    | str s => exact hite _ _
    | obj fields => exact hite _ _
  · intro a items h
    simp [load_release_matrix, h]
  · intro items name
    rw [buildByArchive, buildFold_lookup]
    cases items.reverse.find? (entryFor name) with
    | some j => rfl
    | none => simp [List.lookup]
  · intro items
    exact buildFold_keys items [] (by simp)

/-- C4 witness: a failed fetch and a non-list payload both give the empty
mapping; a two-entry list payload (one object, one `null`) maps the trimmed
archive name to the trimmed fields and skips the non-object entry. -/
theorem load_release_matrix_spec_witness :
    load_release_matrix (some ⟨chars "RELEASE_MATRIX.json", chars "u", 0⟩) .err = [] ∧
    load_release_matrix (some ⟨chars "RELEASE_MATRIX.json", chars "u", 0⟩)
      (.ok (.str (chars "nope"))) = [] ∧
    load_release_matrix (some ⟨chars "RELEASE_MATRIX.json", chars "u", 0⟩)
      (.ok (.arr
        [Json.obj [(chars "archive_name", .str (chars " firmware-a-1.0.zip ")),
                   (chars "build_list_file", .str (chars "build_list_eu"))],
         Json.null])) =
      [(chars "firmware-a-1.0.zip", ⟨chars "build_list_eu", [], []⟩)] := by
  refine ⟨load_release_matrix_spec.2.2.1 _,
    load_release_matrix_spec.2.2.2.1 _ _ (fun items h => Json.noConfusion h), ?_⟩
  rw [load_release_matrix_spec.2.2.2.2.1 _ _ (by decide)]
  decide

/-- C3: `fetch_releases` consumes pages until one is empty or shorter than
100; its result holds exactly the fetched releases whose draft flag is not
set; and it is sorted descending by the key `published_at or created_at or
""` (string comparison). -/
theorem fetch_releases_spec (pages : List (List RawRelease)) :
    (fetch_releases pages).Perm
        ((fetch_releases_pages pages).filter (fun rel => !rel.draft)) ∧
    (∀ rel, rel ∈ fetch_releases pages ↔
        rel ∈ fetch_releases_pages pages ∧ rel.draft = false) ∧
    List.Sorted releaseDesc (fetch_releases pages) ∧
    (∀ rest, fetch_releases_pages ([] :: rest) = []) ∧
    (∀ chunk rest, chunk ≠ [] → chunk.length < 100 →
        fetch_releases_pages (chunk :: rest) = chunk) ∧
    (∀ chunk rest, chunk ≠ [] → ¬ chunk.length < 100 →
        fetch_releases_pages (chunk :: rest) = chunk ++ fetch_releases_pages rest) := by
  refine ⟨List.perm_insertionSort _ _, ?_, List.sorted_insertionSort _ _, ?_, ?_, ?_⟩
  · intro rel
    have hmem : rel ∈ fetch_releases pages ↔
        rel ∈ (fetch_releases_pages pages).filter (fun r => !r.draft) :=
      (List.perm_insertionSort releaseDesc
        ((fetch_releases_pages pages).filter (fun r => !r.draft))).mem_iff
    rw [hmem, List.mem_filter]
    simp
  · intro rest
    rfl
  · intro chunk rest h1 h2
    simp [fetch_releases_pages, h1, h2]
  · intro chunk rest h1 h2
    simp [fetch_releases_pages, h1, h2]

/-- C3 witness: with one draft and one published release on a single short
page, the result contains only the published one; a short non-empty page is
consumed whole. -/
theorem fetch_releases_spec_witness :
    (pubRel ∈ fetch_releases [[draftRel, pubRel]] ↔
      pubRel ∈ fetch_releases_pages [[draftRel, pubRel]] ∧ pubRel.draft = false) ∧
    fetch_releases_pages [[draftRel, pubRel]] = [draftRel, pubRel] ∧
    fetch_releases [[draftRel, pubRel]] = [pubRel] :=
  ⟨(fetch_releases_spec [[draftRel, pubRel]]).2.1 pubRel,
    (fetch_releases_spec [[draftRel, pubRel]]).2.2.2.2.1 [draftRel, pubRel] []
      (by decide) (by decide),
    by decide⟩

/-- C8: an empty resolved timestamp yields empty display and sort strings; a
non-empty string that `fromisoformat` rejects is passed through unchanged as
both; a parsed value is displayed as `YYYY-MM-DD HH:MM UTC` and sorted as
ISO-8601; and `classify_release` resolves the timestamp preferring
`published_at`, then `created_at`, then the empty string (the function is
total, so nothing is raised). -/
theorem parse_timestamp_spec :
    (∀ s, s ≠ [] → fromisoformat (pyReplace s (chars "Z") (chars "+00:00")) = none →
      parse_timestamp s = (s, s)) ∧
    (∀ s d, fromisoformat (pyReplace s (chars "Z") (chars "+00:00")) = some d →
      parse_timestamp s = (strftimeDisplay d, isoformatStr d)) ∧
    parse_timestamp [] = ([], []) ∧
    (∀ rel fetched,
      (classify_release rel fetched).published_at =
        (if (parse_timestamp (publishedRaw rel)).1 ≠ [] then
          (parse_timestamp (publishedRaw rel)).1 else publishedRaw rel) ∧
      (classify_release rel fetched).published_at_sort =
        (if (parse_timestamp (publishedRaw rel)).2 ≠ [] then
          (parse_timestamp (publishedRaw rel)).2 else publishedRaw rel)) ∧
    (∀ rel, rel.published_at ≠ [] → publishedRaw rel = rel.published_at) ∧
    (∀ rel, rel.published_at = [] → rel.created_at ≠ [] →
      publishedRaw rel = rel.created_at) ∧
    (∀ rel, rel.published_at = [] → rel.created_at = [] → publishedRaw rel = []) := by
  refine ⟨?_, ?_, rfl, ?_, ?_, ?_, ?_⟩
  · intro s hs h
    simp [parse_timestamp, hs, h]
  · intro s d h
    by_cases hs : s = []
    · subst hs
      exact absurd h (by simp [pyReplace, pyReplaceAux, fromisoformat])
    · simp [parse_timestamp, hs, h]
  · intro rel fetched
    exact ⟨rfl, rfl⟩
  · intro rel h
    simp [publishedRaw, h]
  · intro rel h1 h2
    simp [publishedRaw, h1, h2]
  · intro rel h1 h2
    simp [publishedRaw, h1, h2]

/-- C8 witness: the GitHub-shaped timestamp is formatted for display and
sorting, and a malformed one passes through unchanged. -/
theorem parse_timestamp_spec_witness :
    parse_timestamp (chars "2025-01-02T03:04:05Z") =
      (chars "2025-01-02 03:04 UTC", chars "2025-01-02T03:04:05+00:00") ∧
    parse_timestamp (chars "not a date") = (chars "not a date", chars "not a date") := by
  constructor
  · have h := parse_timestamp_spec.2.1 (chars "2025-01-02T03:04:05Z")
      ⟨2025, 1, 2, 3, 4, 5, 0, some 0⟩ (by decide)
    rw [h]
    decide
  · exact parse_timestamp_spec.1 (chars "not a date") (by decide) (by decide)

theorem getLast?_cons_or {α : Type} (a : α) (l : List α) :
    (a :: l).getLast? = l.getLast?.or (some a) := by
  induction l generalizing a with
  | nil => rfl
  | cons b t ih =>
    rw [List.getLast?_cons_cons, ih b, Option.or_assoc]
    rfl

theorem bucketStep_firmware_all (st : AssetBuckets) (a : RawAsset) :
    (bucketStep st a).firmware_all =
      if isAllZipName a.name then some a else st.firmware_all := by
  by_cases h1 : isAllZipName a.name = true
  · simp [bucketStep, h1]
  · rw [Bool.not_eq_true] at h1
    simp only [bucketStep, h1, Bool.false_eq_true, if_false]
    split_ifs <;> rfl

theorem bucketStep_cases (st : AssetBuckets) (a : RawAsset) :
    ((bucketStep st a).per_device_assets =
      if isPerDeviceName a.name then st.per_device_assets ++ [a]
      else st.per_device_assets) ∧
    ((bucketStep st a).other_assets =
      if isOtherName a.name then st.other_assets ++ [a] else st.other_assets) ∧
    ((bucketStep st a).firmware_bundle = st.firmware_bundle ∨
      ((bucketStep st a).firmware_bundle = some a ∧ isAllZipName a.name = false)) ∧
    ((bucketStep st a).checksums = st.checksums ∨
      ((bucketStep st a).checksums = some a ∧ isAllZipName a.name = false)) ∧
    ((bucketStep st a).files_manifest = st.files_manifest ∨
      ((bucketStep st a).files_manifest = some a ∧ isAllZipName a.name = false)) ∧
    ((bucketStep st a).build_info = st.build_info ∨
      ((bucketStep st a).build_info = some a ∧ isAllZipName a.name = false)) ∧
    ((bucketStep st a).release_matrix_asset = st.release_matrix_asset ∨
      ((bucketStep st a).release_matrix_asset = some a ∧ isAllZipName a.name = false)) := by
  by_cases h1 : isAllZipName a.name = true
  · simp [bucketStep, isPerDeviceName, isOtherName, h1]
  · rw [Bool.not_eq_true] at h1
    by_cases h2 : isBundleName a.name = true
    · simp [bucketStep, isPerDeviceName, isOtherName, h1, h2]
    · rw [Bool.not_eq_true] at h2
      by_cases h3 : (a.name == chars "SHA256SUMS.txt") = true
      · simp [bucketStep, isPerDeviceName, isOtherName, h1, h2, h3]
      · rw [Bool.not_eq_true] at h3
        by_cases h4 : (a.name == chars "FILES.txt") = true
        · simp [bucketStep, isPerDeviceName, isOtherName, h1, h2, h3, h4]
        · rw [Bool.not_eq_true] at h4
          by_cases h5 : (a.name == chars "BUILD_INFO.json") = true
          · simp [bucketStep, isPerDeviceName, isOtherName, h1, h2, h3, h4, h5]
          · rw [Bool.not_eq_true] at h5
            by_cases h6 : (a.name == chars "RELEASE_MATRIX.json") = true
            · simp [bucketStep, isPerDeviceName, isOtherName, h1, h2, h3, h4, h5, h6]
            · rw [Bool.not_eq_true] at h6
              by_cases h7 : isFirmwareZipName a.name = true
              · simp [bucketStep, isPerDeviceName, isOtherName, h1, h2, h3, h4, h5, h6, h7]
              · rw [Bool.not_eq_true] at h7
                simp [bucketStep, isPerDeviceName, isOtherName, h1, h2, h3, h4, h5, h6, h7]

theorem classifyFold_all (assets : List RawAsset) :
    ∀ st, (assets.foldl bucketStep st).firmware_all =
      ((assets.filter (fun a => isAllZipName a.name)).getLast?).or st.firmware_all := by
  induction assets with
  | nil => intro st; rfl
  | cons a rest ih =>
    intro st
    rw [List.foldl_cons, ih, bucketStep_firmware_all]
    have hsome : ∀ (x : RawAsset) (o : Option RawAsset), (some x).or o = some x :=
      fun _ _ => rfl
    by_cases h : isAllZipName a.name = true
    · simp [List.filter_cons, h, getLast?_cons_or, Option.or_assoc, hsome]
    · simp [List.filter_cons, h]

theorem classifyFold_per_device (assets : List RawAsset) :
    ∀ st, (assets.foldl bucketStep st).per_device_assets =
      st.per_device_assets ++ assets.filter (fun a => isPerDeviceName a.name) := by
  induction assets with
  | nil => intro st; simp
  | cons a rest ih =>
    intro st
    rw [List.foldl_cons, ih, (bucketStep_cases st a).1]
    by_cases h : isPerDeviceName a.name = true
    · simp [List.filter_cons, h]
    · simp [List.filter_cons, h]

theorem classifyFold_other (assets : List RawAsset) :
    ∀ st, (assets.foldl bucketStep st).other_assets =
      st.other_assets ++ assets.filter (fun a => isOtherName a.name) := by
  induction assets with
  | nil => intro st; simp
  | cons a rest ih =>
    intro st
    rw [List.foldl_cons, ih, (bucketStep_cases st a).2.1]
    by_cases h : isOtherName a.name = true
    · simp [List.filter_cons, h]
    · simp [List.filter_cons, h]

theorem classifyFold_slot (proj : AssetBuckets → Option RawAsset)
    (hstep : ∀ st a, proj (bucketStep st a) = proj st ∨
      (proj (bucketStep st a) = some a ∧ isAllZipName a.name = false)) :
    ∀ (assets : List RawAsset) (st : AssetBuckets),
      (∀ x, proj st = some x → isAllZipName x.name = false) →
      ∀ x, proj (assets.foldl bucketStep st) = some x → isAllZipName x.name = false := by
  intro assets
  induction assets with
  | nil => intro st hst x hx; exact hst x hx
  | cons a rest ih =>
    intro st hst x hx
    rw [List.foldl_cons] at hx
    refine ih (bucketStep st a) ?_ x hx
    intro y hy
    rcases hstep st a with h | ⟨h, hsafe⟩
    · exact hst y (h ▸ hy)
    · rw [h] at hy
      injection hy with h2
      exact h2 ▸ hsafe

theorem isPerDeviceName_not_all {name : Str} (h : isPerDeviceName name = true) :
    isAllZipName name = false := by
  rw [isPerDeviceName] at h
  simp only [Bool.and_eq_true, Bool.not_eq_true'] at h
  exact h.1.1.1.1.1.1

theorem isOtherName_not_all {name : Str} (h : isOtherName name = true) :
    isAllZipName name = false := by
  rw [isOtherName] at h
  simp only [Bool.and_eq_true, Bool.not_eq_true'] at h
  exact h.1.1.1.1.1.1

theorem addRowToSources_rows (P : Row → Prop) (src : Str) (row : Row) (hrow : P row) :
    ∀ sg : SourceGroups, (∀ q ∈ sg, ∀ r ∈ q.2, P r) →
      ∀ q ∈ addRowToSources sg src row, ∀ r ∈ q.2, P r := by
  intro sg
  induction sg with
  | nil =>
    intro _ q hq r hr
    rw [addRowToSources, List.mem_singleton] at hq
    subst hq
    rw [List.mem_singleton] at hr
    subst hr
    exact hrow
  | cons p rest ih =>
    obtain ⟨s, rows⟩ := p
    intro hsg q hq r hr
    by_cases hs : s = src
    · rw [addRowToSources, if_pos hs] at hq
      rcases List.mem_cons.mp hq with h | h
      · subst h
        rcases List.mem_append.mp hr with h2 | h2
        · exact hsg (s, rows) (List.mem_cons_self _ _) r h2
        · rw [List.mem_singleton] at h2
          subst h2
          exact hrow
      · exact hsg q (List.mem_cons_of_mem _ h) r hr
    · rw [addRowToSources, if_neg hs] at hq
      rcases List.mem_cons.mp hq with h | h
      · subst h
        exact hsg (s, rows) (List.mem_cons_self _ _) r hr
      · exact ih (fun q' hq' => hsg q' (List.mem_cons_of_mem _ hq')) q h r hr

theorem addRow_rows (P : Row → Prop) (dev src : Str) (row : Row) (hrow : P row) :
    ∀ dg : DeviceGroups, (∀ p ∈ dg, ∀ q ∈ p.2, ∀ r ∈ q.2, P r) →
      ∀ p ∈ addRow dg dev src row, ∀ q ∈ p.2, ∀ r ∈ q.2, P r := by
  intro dg
  induction dg with
  | nil =>
    intro _ p hp q hq r hr
    rw [addRow, List.mem_singleton] at hp
    subst hp
    rw [List.mem_singleton] at hq
    subst hq
    rw [List.mem_singleton] at hr
    subst hr
    exact hrow
  | cons p0 rest ih =>
    obtain ⟨d, sg⟩ := p0
    intro hdg p hp q hq r hr
    by_cases hd : d = dev
    · rw [addRow, if_pos hd] at hp
      rcases List.mem_cons.mp hp with h | h
      · subst h
        exact addRowToSources_rows P src row hrow sg
          (fun q' hq' => hdg (d, sg) (List.mem_cons_self _ _) q' hq') q hq r hr
      · exact hdg p (List.mem_cons_of_mem _ h) q hq r hr
    · rw [addRow, if_neg hd] at hp
      rcases List.mem_cons.mp hp with h | h
      · subst h
        exact hdg (d, sg) (List.mem_cons_self _ _) q hq r hr
      · exact ih (fun p' hp' => hdg p' (List.mem_cons_of_mem _ hp')) p h q hq r hr

theorem buildDeviceGroups_rows (matrix : List (Str × MatrixMeta)) (version : Str)
    (per_device : List RawAsset) (P : Row → Prop)
    (hpd : ∀ a ∈ per_device, ∀ r : Row, r.asset_name = a.name → P r) :
    ∀ p ∈ buildDeviceGroups per_device matrix version, ∀ q ∈ p.2, ∀ r ∈ q.2, P r := by
  rw [buildDeviceGroups]
  suffices h : ∀ (l : List RawAsset), (∀ a ∈ l, ∀ r : Row, r.asset_name = a.name → P r) →
      ∀ dg : DeviceGroups, (∀ p ∈ dg, ∀ q ∈ p.2, ∀ r ∈ q.2, P r) →
      ∀ p ∈ l.foldl (buildStep matrix version) dg, ∀ q ∈ p.2, ∀ r ∈ q.2, P r by
    exact h per_device hpd [] (by simp)
  intro l
  induction l with
  | nil => intro _ dg hdg p hp q hq r hr; exact hdg p hp q hq r hr
  | cons a rest ih =>
    intro hl dg hdg p hp q hq r hr
    rw [List.foldl_cons] at hp
    refine ih (fun a' ha' => hl a' (List.mem_cons_of_mem _ ha')) _ ?_ p hp q hq r hr
    exact addRow_rows P _ _ _ (hl a (List.mem_cons_self _ _) _ rfl) dg hdg

theorem innerSorted_rows (P : Row → Prop) (dg : DeviceGroups)
    (h : ∀ p ∈ dg, ∀ q ∈ p.2, ∀ r ∈ q.2, P r) :
    ∀ p ∈ innerSortedGroups dg, ∀ q ∈ p.2, ∀ r ∈ q.2, P r := by
  intro p hp q hq r hr
  rw [innerSortedGroups, List.mem_map] at hp
  obtain ⟨p0, hp0, rfl⟩ := hp
  have hq' : q ∈ sortSourceGroups p0.2 := hq
  rw [sortSourceGroups, List.mem_map] at hq'
  obtain ⟨q0, hq0, rfl⟩ := hq'
  have hq0' : q0 ∈ p0.2 :=
    (List.perm_insertionSort srcPairLe p0.2).mem_iff.mp hq0
  have hr' : r ∈ q0.2 :=
    (List.perm_insertionSort rowLe q0.2).mem_iff.mp hr
  exact h p0 hp0 q0 hq0' r hr'

theorem pred_lit_helper (p : Str → Bool) (lit : Str) (hlit : p lit = false) :
    ∀ n, p n = true → (n == lit) = false := by
  intro n h
  cases hbe : n == lit with
  | false => rfl
  | true =>
    rw [eq_of_beq hbe, hlit] at h
    exact absurd h (by decide)

theorem lit_pred_false (p : Str → Bool) (lit : Str) (hlit : p lit = false) :
    ∀ n, (n == lit) = true → p n = false := by
  intro n h
  rw [eq_of_beq h]
  exact hlit

theorem notAllAndBundle (n : Str) (h1 : isAllZipName n = true)
    (h2 : isBundleName n = true) : False := by
  rw [isAllZipName, Bool.and_eq_true] at h1
  rw [isBundleName, Bool.and_eq_true] at h2
  have hp1 : chars "firmware-all-" <+: n :=
    List.isPrefixOf_iff_prefix.mp
      (show (chars "firmware-all-").isPrefixOf n = true from h1.1)
  have hp2 : chars "firmware-bundle-" <+: n :=
    List.isPrefixOf_iff_prefix.mp
      (show (chars "firmware-bundle-").isPrefixOf n = true from h2.1)
  have hpre : chars "firmware-all-" <+: chars "firmware-bundle-" :=
    List.prefix_of_prefix_length_le hp1 hp2 (by decide)
  exact absurd (List.isPrefixOf_iff_prefix.mpr hpre) (by decide)

theorem allNotBundle {n : Str} (h : isAllZipName n = true) : isBundleName n = false := by
  cases hb : isBundleName n with
  | false => rfl
  | true => exact (notAllAndBundle n h hb).elim

theorem bundleNotAll {n : Str} (h : isBundleName n = true) : isAllZipName n = false := by
  cases ha : isAllZipName n with
  | false => rfl
  | true => exact (notAllAndBundle n ha h).elim

theorem specialPred_disjoint (i j : Fin 6) (hij : i ≠ j) :
    ∀ n, specialPred j n = true → specialPred i n = false := by
  fin_cases i <;> fin_cases j <;>
    first
      | exact absurd rfl hij
      | exact fun n h => allNotBundle h
      | exact fun n h => bundleNotAll h
      | exact fun n h => pred_lit_helper _ _ (by decide) n h
      | exact fun n h => lit_pred_false _ _ (by decide) n h

theorem bucketStep_firmware_bundle (st : AssetBuckets) (a : RawAsset) :
    (bucketStep st a).firmware_bundle =
      if isBundleName a.name then some a else st.firmware_bundle := by
  by_cases h : isBundleName a.name = true
  · have h1 : isAllZipName a.name = false := bundleNotAll h
    simp [bucketStep, h1, h]
  · rw [Bool.not_eq_true] at h
    simp only [bucketStep, h, Bool.false_eq_true, if_false]
    split_ifs <;> rfl

theorem bucketStep_checksums (st : AssetBuckets) (a : RawAsset) :
    (bucketStep st a).checksums =
      if a.name == chars "SHA256SUMS.txt" then some a else st.checksums := by
  by_cases h : (a.name == chars "SHA256SUMS.txt") = true
  · have hn : a.name = chars "SHA256SUMS.txt" := eq_of_beq h
    have h1 : isAllZipName a.name = false := by rw [hn]; decide
    have h2 : isBundleName a.name = false := by rw [hn]; decide
    simp [bucketStep, h1, h2, h]
  · rw [Bool.not_eq_true] at h
    simp only [bucketStep, h, Bool.false_eq_true, if_false]
    split_ifs <;> rfl

theorem bucketStep_files_manifest (st : AssetBuckets) (a : RawAsset) :
    (bucketStep st a).files_manifest =
      if a.name == chars "FILES.txt" then some a else st.files_manifest := by
  by_cases h : (a.name == chars "FILES.txt") = true
  · have hn : a.name = chars "FILES.txt" := eq_of_beq h
    have h1 : isAllZipName a.name = false := by rw [hn]; decide
    have h2 : isBundleName a.name = false := by rw [hn]; decide
    have h3 : (a.name == chars "SHA256SUMS.txt") = false := by rw [hn]; decide
    simp [bucketStep, h1, h2, h3, h]
  · rw [Bool.not_eq_true] at h
    simp only [bucketStep, h, Bool.false_eq_true, if_false]
    split_ifs <;> rfl

theorem bucketStep_build_info (st : AssetBuckets) (a : RawAsset) :
    (bucketStep st a).build_info =
      if a.name == chars "BUILD_INFO.json" then some a else st.build_info := by
  by_cases h : (a.name == chars "BUILD_INFO.json") = true
  · have hn : a.name = chars "BUILD_INFO.json" := eq_of_beq h
    have h1 : isAllZipName a.name = false := by rw [hn]; decide
    have h2 : isBundleName a.name = false := by rw [hn]; decide
    have h3 : (a.name == chars "SHA256SUMS.txt") = false := by rw [hn]; decide
    have h4 : (a.name == chars "FILES.txt") = false := by rw [hn]; decide
    simp [bucketStep, h1, h2, h3, h4, h]
  · rw [Bool.not_eq_true] at h
    simp only [bucketStep, h, Bool.false_eq_true, if_false]
    split_ifs <;> rfl

theorem bucketStep_release_matrix (st : AssetBuckets) (a : RawAsset) :
    (bucketStep st a).release_matrix_asset =
      if a.name == chars "RELEASE_MATRIX.json" then some a
      else st.release_matrix_asset := by
  by_cases h : (a.name == chars "RELEASE_MATRIX.json") = true
  · have hn : a.name = chars "RELEASE_MATRIX.json" := eq_of_beq h
    have h1 : isAllZipName a.name = false := by rw [hn]; decide
    have h2 : isBundleName a.name = false := by rw [hn]; decide
    have h3 : (a.name == chars "SHA256SUMS.txt") = false := by rw [hn]; decide
    have h4 : (a.name == chars "FILES.txt") = false := by rw [hn]; decide
    have h5 : (a.name == chars "BUILD_INFO.json") = false := by rw [hn]; decide
    simp [bucketStep, h1, h2, h3, h4, h5, h]
  · rw [Bool.not_eq_true] at h
    simp only [bucketStep, h, Bool.false_eq_true, if_false]
    split_ifs <;> rfl

theorem classifyFold_slot_filter (proj : AssetBuckets → Option RawAsset)
    (pred : Str → Bool)
    (hstep : ∀ st a, proj (bucketStep st a) =
      if pred a.name then some a else proj st) :
    ∀ (assets : List RawAsset) (st : AssetBuckets),
      proj (assets.foldl bucketStep st) =
        ((assets.filter (fun a => pred a.name)).getLast?).or (proj st) := by
  intro assets
  induction assets with
  | nil => intro st; rfl
  | cons a rest ih =>
    intro st
    rw [List.foldl_cons, ih, hstep]
    have hsome : ∀ (x : RawAsset) (o : Option RawAsset), (some x).or o = some x :=
      fun _ _ => rfl
    by_cases h : pred a.name = true
    · simp [List.filter_cons, h, getLast?_cons_or, Option.or_assoc, hsome]
    · simp [List.filter_cons, h]

theorem isPerDeviceName_not_special {n : Str} (h : isPerDeviceName n = true) :
    ∀ i : Fin 6, specialPred i n = false := by
  rw [isPerDeviceName] at h
  simp only [Bool.and_eq_true, Bool.not_eq_true'] at h
  intro i
  fin_cases i
  · exact h.1.1.1.1.1.1
  · exact h.1.1.1.1.1.2
  · exact h.1.1.1.1.2
  · exact h.1.1.1.2
  · exact h.1.1.2
  · exact h.1.2

theorem isOtherName_not_special {n : Str} (h : isOtherName n = true) :
    ∀ i : Fin 6, specialPred i n = false := by
  rw [isOtherName] at h
  simp only [Bool.and_eq_true, Bool.not_eq_true'] at h
  intro i
  fin_cases i
  · exact h.1.1.1.1.1.1
  · exact h.1.1.1.1.1.2
  · exact h.1.1.1.1.2
  · exact h.1.1.1.2
  · exact h.1.1.2
  · exact h.1.2

/-- C10: for every special role — aggregate zip, bundle archive, checksums,
file manifest, build info, release matrix — when several assets match that
role's name test, the role's slot stores only the last such asset in API
order; an asset matching a role never occupies a different special slot,
never appears in any device-group row, and never lands in `other_assets`;
and `assets_total` still counts every asset of the release. -/
theorem classify_release_specials (raw : RawRelease) (fetched : FetchOutcome) :
    (∀ i : Fin 6, specialSlot (classify_release raw fetched) i =
      (raw.assets.filter (fun a => specialPred i a.name)).getLast?) ∧
    (∀ i j : Fin 6, i ≠ j → ∀ a,
      specialSlot (classify_release raw fetched) j = some a →
      specialPred i a.name = false) ∧
    (∀ p ∈ (classify_release raw fetched).device_groups, ∀ q ∈ p.2, ∀ r ∈ q.2,
      ∀ i : Fin 6, specialPred i r.asset_name = false) ∧
    (∀ a ∈ (classify_release raw fetched).other_assets, ∀ i : Fin 6,
      specialPred i a.name = false) ∧
    (classify_release raw fetched).assets_total = raw.assets.length := by
  have hpd : (classifyAssets raw.assets).per_device_assets =
      raw.assets.filter (fun a => isPerDeviceName a.name) := by
    rw [classifyAssets, classifyFold_per_device]
    rfl
  have hA : ∀ i : Fin 6, specialSlot (classify_release raw fetched) i =
      (raw.assets.filter (fun a => specialPred i a.name)).getLast? := by
    intro i
    fin_cases i
    · have h := classifyFold_slot_filter AssetBuckets.firmware_all isAllZipName
        bucketStep_firmware_all raw.assets ⟨none, none, none, none, none, none, [], []⟩
      rw [Option.or_none] at h
      exact h
    · have h := classifyFold_slot_filter AssetBuckets.firmware_bundle isBundleName
        bucketStep_firmware_bundle raw.assets ⟨none, none, none, none, none, none, [], []⟩
      rw [Option.or_none] at h
      exact h
    · have h := classifyFold_slot_filter AssetBuckets.checksums
        (fun n => n == chars "SHA256SUMS.txt")
        bucketStep_checksums raw.assets ⟨none, none, none, none, none, none, [], []⟩
      rw [Option.or_none] at h
      exact h
    · have h := classifyFold_slot_filter AssetBuckets.files_manifest
        (fun n => n == chars "FILES.txt")
        bucketStep_files_manifest raw.assets ⟨none, none, none, none, none, none, [], []⟩
      rw [Option.or_none] at h
      exact h
    · have h := classifyFold_slot_filter AssetBuckets.build_info
        (fun n => n == chars "BUILD_INFO.json")
        bucketStep_build_info raw.assets ⟨none, none, none, none, none, none, [], []⟩
      rw [Option.or_none] at h
      exact h
    · have h := classifyFold_slot_filter AssetBuckets.release_matrix_asset
        (fun n => n == chars "RELEASE_MATRIX.json")
        bucketStep_release_matrix raw.assets ⟨none, none, none, none, none, none, [], []⟩
      rw [Option.or_none] at h
      exact h
  refine ⟨hA, ?_, ?_, ?_, rfl⟩
  · intro i j hij a hja
    rw [hA j] at hja
    have hmem : a ∈ raw.assets.filter (fun x => specialPred j x.name) := by
      have hin : a ∈ (raw.assets.filter (fun x => specialPred j x.name)).getLast? :=
        Option.mem_def.mpr hja
      obtain ⟨hne, heq⟩ := List.mem_getLast?_eq_getLast hin
      rw [heq]
      exact List.getLast_mem hne
    exact specialPred_disjoint i j hij a.name (List.mem_filter.mp hmem).2
  · intro p hp q hq r hr i
    have hp' : p ∈ List.insertionSort devPairLe (innerSortedGroups
        (buildDeviceGroups (classifyAssets raw.assets).per_device_assets
          (load_release_matrix (classifyAssets raw.assets).release_matrix_asset fetched)
          (parse_version_label raw.assets))) := hp
    rw [(List.perm_insertionSort devPairLe _).mem_iff] at hp'
    refine innerSorted_rows (fun r => ∀ i : Fin 6, specialPred i r.asset_name = false)
      _ ?_ p hp' q hq r hr i
    refine buildDeviceGroups_rows _ _ _
      (fun r => ∀ i : Fin 6, specialPred i r.asset_name = false) ?_
    intro a ha r' hr' i'
    rw [hpd, List.mem_filter] at ha
    rw [hr']
    exact isPerDeviceName_not_special ha.2 i'
  · intro a ha i
    have ha' : a ∈ List.insertionSort assetNameLe (classifyAssets raw.assets).other_assets :=
      ha
    rw [(List.perm_insertionSort assetNameLe _).mem_iff] at ha'
    have hot : (classifyAssets raw.assets).other_assets =
        raw.assets.filter (fun a => isOtherName a.name) := by
      rw [classifyAssets, classifyFold_other]
      rfl
    rw [hot, List.mem_filter] at ha'
    exact isOtherName_not_special ha'.2 i

/-- C10 witness: with two aggregate zips and two bundle archives, each role's
slot holds its last match in API order (`firmware-all-2.0.zip` and
`firmware-bundle-2.0.tar.gz`); the cross-slot conjunct applied at the bundle
slot shows its occupant is not all-matching; nothing lands in
`other_assets`; and `assets_total` counts all four assets. -/
theorem classify_release_specials_witness :
    specialSlot (classify_release dupAllRel .err) 0 =
      (dupAllRel.assets.filter (fun a => specialPred 0 a.name)).getLast? ∧
    specialSlot (classify_release dupAllRel .err) 1 =
      (dupAllRel.assets.filter (fun a => specialPred 1 a.name)).getLast? ∧
    (classify_release dupAllRel .err).firmware_all =
      some ⟨chars "firmware-all-2.0.zip", chars "u2", 0⟩ ∧
    (classify_release dupAllRel .err).firmware_bundle =
      some ⟨chars "firmware-bundle-2.0.tar.gz", chars "u4", 0⟩ ∧
    specialPred 0 (chars "firmware-bundle-2.0.tar.gz") = false ∧
    (classify_release dupAllRel .err).other_assets = [] ∧
    (classify_release dupAllRel .err).assets_total = 4 :=
  ⟨(classify_release_specials dupAllRel .err).1 0,
   (classify_release_specials dupAllRel .err).1 1,
   by decide, by decide,
   (classify_release_specials dupAllRel .err).2.1 0 1 (by decide)
     ⟨chars "firmware-bundle-2.0.tar.gz", chars "u4", 0⟩ (by decide),
   by decide, by decide⟩

theorem addRowToSources_keys (src : Str) (row : Row) :
    ∀ sg : SourceGroups, (addRowToSources sg src row).map Prod.fst =
      if src ∈ sg.map Prod.fst then sg.map Prod.fst
      else sg.map Prod.fst ++ [src] := by
  intro sg
  induction sg with
  | nil => simp [addRowToSources]
  | cons p rest ih =>
    obtain ⟨s, rows⟩ := p
    by_cases hs : s = src
    · subst hs
      simp [addRowToSources]
    · have hs' : ¬ src = s := fun h => hs h.symm
      rw [addRowToSources, if_neg hs]
      simp only [List.map_cons, ih, List.mem_cons]
      by_cases hm : src ∈ rest.map Prod.fst
      · simp [hm, hs']
      · simp [hm, hs']

theorem addRowToSources_nodup (src : Str) (row : Row) (sg : SourceGroups)
    (h : (sg.map Prod.fst).Nodup) :
    ((addRowToSources sg src row).map Prod.fst).Nodup := by
  rw [addRowToSources_keys]
  by_cases hm : src ∈ sg.map Prod.fst
  · simpa [hm] using h
  · rw [if_neg hm]
    exact h.append (List.nodup_singleton src)
      (fun x hx hx' => hm (by rwa [List.mem_singleton.mp hx'] at hx))

theorem addRow_keys (dev src : Str) (row : Row) :
    ∀ dg : DeviceGroups, (addRow dg dev src row).map Prod.fst =
      if dev ∈ dg.map Prod.fst then dg.map Prod.fst
      else dg.map Prod.fst ++ [dev] := by
  intro dg
  induction dg with
  | nil => simp [addRow]
  | cons p rest ih =>
    obtain ⟨d, sg⟩ := p
    by_cases hd : d = dev
    · subst hd
      simp [addRow]
    · have hd' : ¬ dev = d := fun h => hd h.symm
      rw [addRow, if_neg hd]
      simp only [List.map_cons, ih, List.mem_cons]
      by_cases hm : dev ∈ rest.map Prod.fst
      · simp [hm, hd']
      · simp [hm, hd']

theorem addRow_inv (dev src : Str) (row : Row) :
    ∀ dg : DeviceGroups, (dg.map Prod.fst).Nodup →
      (∀ p ∈ dg, (p.2.map Prod.fst).Nodup) →
      ((addRow dg dev src row).map Prod.fst).Nodup ∧
        ∀ p ∈ addRow dg dev src row, (p.2.map Prod.fst).Nodup := by
  intro dg
  induction dg with
  | nil =>
    intro _ _
    refine ⟨by simp [addRow], ?_⟩
    intro p hp
    rw [addRow, List.mem_singleton] at hp
    subst hp
    simp
  | cons p0 rest ih =>
    obtain ⟨d, sg⟩ := p0
    intro hkeys hinner
    have hkeys' : d ∉ rest.map Prod.fst ∧ (rest.map Prod.fst).Nodup := by
      rw [List.map_cons, List.nodup_cons] at hkeys
      exact hkeys
    by_cases hd : d = dev
    · rw [addRow, if_pos hd]
      refine ⟨by simpa [List.map_cons] using hkeys, ?_⟩
      intro p hp
      rcases List.mem_cons.mp hp with h | h
      · subst h
        exact addRowToSources_nodup src row sg (hinner (d, sg) (List.mem_cons_self _ _))
      · exact hinner p (List.mem_cons_of_mem _ h)
    · rw [addRow, if_neg hd]
      have ih' := ih hkeys'.2 (fun p hp => hinner p (List.mem_cons_of_mem _ hp))
      constructor
      · rw [List.map_cons, List.nodup_cons]
        refine ⟨?_, ih'.1⟩
        rw [addRow_keys]
        by_cases hm : dev ∈ rest.map Prod.fst
        · simpa [hm] using hkeys'.1
        · rw [if_neg hm, List.mem_append, List.mem_singleton]
          rintro (h | h)
          · exact hkeys'.1 h
          · exact hd h
      · intro p hp
        rcases List.mem_cons.mp hp with h | h
        · subst h
          exact hinner (d, sg) (List.mem_cons_self _ _)
        · exact ih'.2 p h

theorem buildFold_inv (matrix : List (Str × MatrixMeta)) (version : Str) :
    ∀ (l : List RawAsset) (dg : DeviceGroups),
      (dg.map Prod.fst).Nodup → (∀ p ∈ dg, (p.2.map Prod.fst).Nodup) →
      (((l.foldl (buildStep matrix version) dg).map Prod.fst).Nodup ∧
        ∀ p ∈ l.foldl (buildStep matrix version) dg, (p.2.map Prod.fst).Nodup) := by
  intro l
  induction l with
  | nil => intro dg h1 h2; exact ⟨h1, h2⟩
  | cons a rest ih =>
    intro dg h1 h2
    rw [List.foldl_cons]
    have hstep := addRow_inv (derive_device_slug a.name version)
      (pick_source_name (matrix.lookup a.name)) (buildRow version a) dg h1 h2
    exact ih _ hstep.1 hstep.2

/-- `source_sort_key` keeps the label itself as its second component. -/
theorem source_sort_key_snd (s : Str) : (source_sort_key s).2 = s := by
  unfold source_sort_key
  split_ifs <;> rfl

theorem pairwise_devLt_of_le_nodup {l : List (Str × SourceGroups)}
    (hle : List.Pairwise devPairLe l) (hnd : (l.map Prod.fst).Nodup) :
    List.Pairwise (fun p q : Str × SourceGroups => p.1 < q.1) l := by
  have hne : List.Pairwise (fun p q : Str × SourceGroups => p.1 ≠ q.1) l := by
    rw [List.Nodup, List.pairwise_map] at hnd
    exact hnd
  exact (hle.and hne).imp (fun h => lt_of_le_of_ne h.1 h.2)

theorem pairwise_sourceLt_of_le_nodup {l : List (Str × List Row)}
    (hle : List.Pairwise srcPairLe l) (hnd : (l.map Prod.fst).Nodup) :
    List.Pairwise (fun x y : Str × List Row => sourceLt x.1 y.1) l := by
  have hne : List.Pairwise (fun x y : Str × List Row => x.1 ≠ y.1) l := by
    rw [List.Nodup, List.pairwise_map] at hnd
    exact hnd
  refine (hle.and hne).imp ?_
  rintro a b ⟨h1, h2⟩
  rcases h1 with h | ⟨heq, hle2⟩
  · exact Or.inl h
  · refine Or.inr ⟨heq, ?_⟩
    rw [source_sort_key_snd, source_sort_key_snd] at hle2 ⊢
    exact lt_of_le_of_ne hle2 h2

theorem innerSorted_keys (dg : DeviceGroups) :
    (innerSortedGroups dg).map Prod.fst = dg.map Prod.fst := by
  rw [innerSortedGroups, List.map_map]
  rfl

/-- C2: in every classified release the device-group keys are unique and
sorted lexicographically (strictly increasing); within each device group the
source keys are strictly increasing under the `source_sort_key` order, which
is lexicographic except that the sentinel `unknown-build-list` ranks last;
each source's row list is sorted by asset name; and the claim's example set
of three labels sorts with the sentinel last. -/
theorem classify_release_sorted (raw : RawRelease) (fetched : FetchOutcome) :
    List.Pairwise (fun p q : Str × SourceGroups => p.1 < q.1)
      (classify_release raw fetched).device_groups ∧
    (∀ p ∈ (classify_release raw fetched).device_groups,
      List.Pairwise (fun x y : Str × List Row => sourceLt x.1 y.1) p.2 ∧
      ∀ q ∈ p.2, List.Pairwise rowLe q.2) ∧
    List.insertionSort srcPairLe
        [(chars "build_list_a.yaml", ([] : List Row)),
         (chars "unknown-build-list", []), (chars "build_list_b.yaml", [])] =
      [(chars "build_list_a.yaml", []), (chars "build_list_b.yaml", []),
       (chars "unknown-build-list", [])] := by
  have hinv0 : ((buildDeviceGroups (classifyAssets raw.assets).per_device_assets
        (load_release_matrix (classifyAssets raw.assets).release_matrix_asset fetched)
        (parse_version_label raw.assets)).map Prod.fst).Nodup ∧
      ∀ p ∈ buildDeviceGroups (classifyAssets raw.assets).per_device_assets
        (load_release_matrix (classifyAssets raw.assets).release_matrix_asset fetched)
        (parse_version_label raw.assets), (p.2.map Prod.fst).Nodup :=
    buildFold_inv
      (load_release_matrix (classifyAssets raw.assets).release_matrix_asset fetched)
      (parse_version_label raw.assets)
      (classifyAssets raw.assets).per_device_assets [] (by simp) (by simp)
  set matrix := load_release_matrix (classifyAssets raw.assets).release_matrix_asset fetched
    with hmatrix
  set version := parse_version_label raw.assets with hversion
  set dg0 := buildDeviceGroups (classifyAssets raw.assets).per_device_assets matrix version
    with hdg0
  set dg1 := innerSortedGroups dg0 with hdg1
  have hgroups : (classify_release raw fetched).device_groups =
      List.insertionSort devPairLe dg1 := rfl
  have hkeys1 : dg1.map Prod.fst = dg0.map Prod.fst := innerSorted_keys dg0
  refine ⟨?_, ?_, by decide⟩
  · rw [hgroups]
    have hsorted : List.Pairwise devPairLe (List.insertionSort devPairLe dg1) :=
      List.sorted_insertionSort devPairLe dg1
    have hnd : ((List.insertionSort devPairLe dg1).map Prod.fst).Nodup := by
      have hperm : ((List.insertionSort devPairLe dg1).map Prod.fst).Perm
          (dg1.map Prod.fst) := (List.perm_insertionSort devPairLe dg1).map Prod.fst
      rw [hperm.nodup_iff, hkeys1]
      exact hinv0.1
    exact pairwise_devLt_of_le_nodup hsorted hnd
  · intro p hp
    rw [hgroups] at hp
    have hp1 : p ∈ dg1 := (List.perm_insertionSort devPairLe dg1).mem_iff.mp hp
    rw [hdg1, innerSortedGroups, List.mem_map] at hp1
    obtain ⟨p0, hp0, rfl⟩ := hp1
    constructor
    · show List.Pairwise (fun x y : Str × List Row => sourceLt x.1 y.1)
        (sortSourceGroups p0.2)
      rw [sortSourceGroups]
      have hle : List.Pairwise srcPairLe (List.insertionSort srcPairLe p0.2) :=
        List.sorted_insertionSort srcPairLe p0.2
      have hnd : ((List.insertionSort srcPairLe p0.2).map Prod.fst).Nodup := by
        have hperm : ((List.insertionSort srcPairLe p0.2).map Prod.fst).Perm
            (p0.2.map Prod.fst) := (List.perm_insertionSort srcPairLe p0.2).map Prod.fst
        rw [hperm.nodup_iff]
        exact hinv0.2 p0 hp0
      have hlt := pairwise_sourceLt_of_le_nodup hle hnd
      exact hlt.map _ (fun a b h => h)
    · intro q hq
      have hq' : q ∈ sortSourceGroups p0.2 := hq
      rw [sortSourceGroups, List.mem_map] at hq'
      obtain ⟨q0, _, rfl⟩ := hq'
      show List.Pairwise rowLe (List.insertionSort rowLe q0.2)
      exact List.sorted_insertionSort rowLe q0.2

/-- C2 witness: the sortedness statement applied to a concrete device group
of `multiRel`, whose classified groups come out with devices sorted, the
variant row first (its name sorts before the main archive's), and the
fallback source label. -/
theorem classify_release_sorted_witness :
    ((chars "a", [(chars "unknown-build-list",
      [⟨chars "variant 1", chars "firmware-a-1.0-1.zip", [], chars "0 B"⟩,
       ⟨chars "main", chars "firmware-a-1.0.zip", [], chars "0 B"⟩])]) : Str × SourceGroups) ∈
      (classify_release multiRel .err).device_groups ∧
    List.Pairwise (fun x y : Str × List Row => sourceLt x.1 y.1)
      [(chars "unknown-build-list",
        [⟨chars "variant 1", chars "firmware-a-1.0-1.zip", [], chars "0 B"⟩,
         ⟨chars "main", chars "firmware-a-1.0.zip", [], chars "0 B"⟩])] ∧
    (classify_release multiRel .err).device_groups =
      [(chars "a", [(chars "unknown-build-list",
        [⟨chars "variant 1", chars "firmware-a-1.0-1.zip", [], chars "0 B"⟩,
         ⟨chars "main", chars "firmware-a-1.0.zip", [], chars "0 B"⟩])]),
       (chars "b", [(chars "unknown-build-list",
        [⟨chars "main", chars "firmware-b-1.0.zip", [], chars "0 B"⟩])])] :=
  ⟨by decide,
   ((classify_release_sorted multiRel .err).2.1
     ((chars "a", [(chars "unknown-build-list",
       [⟨chars "variant 1", chars "firmware-a-1.0-1.zip", [], chars "0 B"⟩,
        ⟨chars "main", chars "firmware-a-1.0.zip", [], chars "0 B"⟩])]) : Str × SourceGroups)
     (by decide)).1,
   by decide⟩

theorem insertNew_mem (acc : List Str) (y x : Str) :
    x ∈ insertNew acc y ↔ x ∈ acc ∨ x = y := by
  rw [insertNew]
  by_cases hm : y ∈ acc
  · rw [if_pos hm]
    constructor
    · exact Or.inl
    · rintro (h | h)
      · exact h
      · exact h ▸ hm
  · rw [if_neg hm, List.mem_append, List.mem_singleton]

theorem insertNew_nodup (acc : List Str) (y : Str) (h : acc.Nodup) :
    (insertNew acc y).Nodup := by
  rw [insertNew]
  by_cases hm : y ∈ acc
  · rwa [if_pos hm]
  · rw [if_neg hm]
    exact h.append (List.nodup_singleton y)
      (fun x hx hx' => hm (by rwa [List.mem_singleton.mp hx'] at hx))

theorem foldInsertNew_nodup (xs : List Str) :
    ∀ acc : List Str, acc.Nodup → (xs.foldl insertNew acc).Nodup := by
  induction xs with
  | nil => intro acc h; exact h
  | cons y rest ih =>
    intro acc h
    rw [List.foldl_cons]
    exact ih _ (insertNew_nodup acc y h)

theorem foldInsertNew_mem (xs : List Str) :
    ∀ (acc : List Str) (x : Str), x ∈ xs.foldl insertNew acc ↔ x ∈ acc ∨ x ∈ xs := by
  induction xs with
  | nil => intro acc x; simp
  | cons y rest ih =>
    intro acc x
    rw [List.foldl_cons, ih, insertNew_mem, List.mem_cons]
    tauto

theorem uniqueSourcesOf_eq_fold (dg : DeviceGroups) :
    uniqueSourcesOf dg = (dg.flatMap (fun p => p.2.map Prod.fst)).foldl insertNew [] := by
  rw [uniqueSourcesOf]
  suffices h : ∀ (l : DeviceGroups) (acc : List Str),
      l.foldl (fun acc p => p.2.foldl (fun acc2 q => insertNew acc2 q.1) acc) acc =
        (l.flatMap (fun p => p.2.map Prod.fst)).foldl insertNew acc from h dg []
  intro l
  induction l with
  | nil => intro acc; rfl
  | cons p rest ih =>
    intro acc
    rw [List.foldl_cons, List.flatMap_cons, List.foldl_append, ih, List.foldl_map]

/-- C7: `devices_total` is the number of device groups; `sources_total` is
the number of distinct source labels across all device groups of the release
(each label counted once); and a release with no per-device assets has
`devices_total = 0` and is rendered with the no-archives placeholder rather
than an empty table. -/
theorem classify_release_totals (raw : RawRelease) (fetched : FetchOutcome) :
    (classify_release raw fetched).devices_total =
      (classify_release raw fetched).device_groups.length ∧
    (classify_release raw fetched).sources_total =
      (((classify_release raw fetched).device_groups.flatMap
        (fun p => p.2.map Prod.fst)).dedup).length ∧
    ((classifyAssets raw.assets).per_device_assets = [] →
      (classify_release raw fetched).devices_total = 0 ∧
      deviceCardsOf (classify_release raw fetched) = [noArchivesPlaceholder] ∧
      ∃ pre post, render_release_card (classify_release raw fetched) =
        pre ++ noArchivesPlaceholder ++ post) := by
  set matrix := load_release_matrix (classifyAssets raw.assets).release_matrix_asset fetched
    with hmatrix
  set version := parse_version_label raw.assets with hversion
  set dg1 := innerSortedGroups
    (buildDeviceGroups (classifyAssets raw.assets).per_device_assets matrix version)
    with hdg1
  have hgroups : (classify_release raw fetched).device_groups =
      List.insertionSort devPairLe dg1 := rfl
  have htotal : (classify_release raw fetched).devices_total = dg1.length := rfl
  have hsources : (classify_release raw fetched).sources_total =
      (uniqueSourcesOf dg1).length := rfl
  refine ⟨?_, ?_, ?_⟩
  · rw [htotal, hgroups, (List.perm_insertionSort devPairLe dg1).length_eq]
  · rw [hsources, uniqueSourcesOf_eq_fold]
    have hnd1 : ((dg1.flatMap (fun p => p.2.map Prod.fst)).foldl insertNew []).Nodup :=
      foldInsertNew_nodup _ [] (by simp)
    have hnd2 : (((classify_release raw fetched).device_groups.flatMap
        (fun p => p.2.map Prod.fst)).dedup).Nodup := List.nodup_dedup _
    refine List.Perm.length_eq ?_
    rw [List.perm_ext_iff_of_nodup hnd1 hnd2]
    intro x
    rw [foldInsertNew_mem, List.mem_dedup, List.mem_flatMap, List.mem_flatMap, hgroups]
    constructor
    · rintro (h | ⟨p, hp, hx⟩)
      · exact absurd h (List.not_mem_nil x)
      · exact ⟨p, (List.perm_insertionSort devPairLe dg1).mem_iff.mpr hp, hx⟩
    · rintro ⟨p, hp, hx⟩
      exact Or.inr ⟨p, (List.perm_insertionSort devPairLe dg1).mem_iff.mp hp, hx⟩
  · intro hempty
    have hdg1nil : dg1 = [] := by
      rw [hdg1, hempty]
      rfl
    have hgnil : (classify_release raw fetched).device_groups = [] := by
      rw [hgroups, hdg1nil]
      rfl
    have hcards : deviceCardsOf (classify_release raw fetched) = [noArchivesPlaceholder] := by
      rw [deviceCardsOf, hgnil]
      simp
    refine ⟨by rw [htotal, hdg1nil]; rfl, hcards, ?_⟩
    refine ⟨releaseCardHead (classify_release raw fetched), releaseCardTail, ?_⟩
    rw [render_release_card, hcards]
    simp [List.append_assoc]

/-- C7 witness: a release with no per-device archives classifies to zero
devices and renders the placeholder. -/
theorem classify_release_totals_witness :
    (classify_release emptyRel .err).devices_total = 0 ∧
    deviceCardsOf (classify_release emptyRel .err) = [noArchivesPlaceholder] ∧
    (∃ pre post, render_release_card (classify_release emptyRel .err) =
      pre ++ noArchivesPlaceholder ++ post) ∧
    (classify_release emptyRel .err).sources_total = 0 :=
  ⟨((classify_release_totals emptyRel .err).2.2 (by decide)).1,
   ((classify_release_totals emptyRel .err).2.2 (by decide)).2.1,
   ((classify_release_totals emptyRel .err).2.2 (by decide)).2.2,
   by decide⟩

end ReleasePages
